import Mathlib

/-!
# Deep-copy functions of `api/v1alpha1` (cluster-api-provider-jira)

A shallow embedding of `api/v1alpha1/jiramachine_types.go` and of the
`JiraMachine*` functions of `api/v1alpha1/zz_generated.deepcopy.go`.

Go pointers, `new`, `make` and slices are modelled on an explicit heap: a list
of objects, the address of an object being its index.  Every Go statement of a
function body is one step of the embedding, run in the `Except Fault` monad
with the heap passed explicitly; a nil dereference is the fault
`Fault.nilDereference`.

`JiraMachineStatus` has no fields, so its size is zero: `new(JiraMachineStatus)`
creates no object and returns the allocator's shared zero-size address
(`StatusLoc.zerobase`).

The package `k8s.io/apimachinery/pkg/apis/meta/v1` is not part of the
repository: its three types and its two copy functions are parameters
(`Metav1`).
-/

namespace V1alpha1

/-- The part of `k8s.io/apimachinery/pkg/apis/meta/v1` the package uses: the
types `TypeMeta`, `ObjectMeta` and `ListMeta`, their zero values, and the two
external functions `ObjectMeta.DeepCopyInto` and `ListMeta.DeepCopyInto`, each
given as the value its destination holds afterwards, as a function of the
receiver's value and of the destination's value before the call. -/
structure Metav1 where
  TypeMeta : Type
  ObjectMeta : Type
  ListMeta : Type
  zeroTypeMeta : TypeMeta
  zeroObjectMeta : ObjectMeta
  zeroListMeta : ListMeta
  ObjectMeta_DeepCopyInto : ObjectMeta → ObjectMeta → ObjectMeta
  ListMeta_DeepCopyInto : ListMeta → ListMeta → ListMeta

/-- Run-time panics of the embedding.  `invalidAddress` is the embedding's own
fault for an address that holds no object of the expected type: Go's typed,
garbage-collected pointers never produce it. -/
inductive Fault where
  | nilDereference
  | indexOutOfRange
  | invalidAddress
  deriving DecidableEq, Repr

/-- Go: `type JiraMachineSpec struct { Foo string }`. -/
structure JiraMachineSpec where
  Foo : String
  deriving DecidableEq, Repr

/-- Go: `type JiraMachineStatus struct {}`. -/
structure JiraMachineStatus where
  deriving DecidableEq, Repr

/-- Go: `type JiraMachine struct { TypeMeta; ObjectMeta; Spec; Status }`. -/
structure JiraMachine (K : Metav1) where
  TypeMeta : K.TypeMeta
  ObjectMeta : K.ObjectMeta
  Spec : JiraMachineSpec
  Status : JiraMachineStatus

/-- A non-nil Go slice value: backing array, offset of element 0 in it, length
and capacity. -/
structure Slice where
  arr : Nat
  off : Nat
  len : Nat
  cap : Nat
  deriving DecidableEq, Repr

/-- Go: `type JiraMachineList struct { TypeMeta; ListMeta; Items []JiraMachine }`.
`Items = none` is the nil slice. -/
structure JiraMachineList (K : Metav1) where
  TypeMeta : K.TypeMeta
  ListMeta : K.ListMeta
  Items : Option Slice

/-- Where a `JiraMachine` variable lives: in a cell of its own, or as element
`i` of the backing array at address `arr`. -/
inductive MachineLoc where
  | cell (a : Nat)
  | elem (arr : Nat) (i : Nat)
  deriving DecidableEq, Repr

/-- Where a `JiraMachineSpec` variable lives: in a cell of its own, or as the
field `Spec` of a `JiraMachine`. -/
inductive FieldLoc where
  | cell (a : Nat)
  | field (m : MachineLoc)
  deriving DecidableEq, Repr

/-- Where a `JiraMachineStatus` variable lives. The struct has no fields, so
its size is zero, and Go's allocator hands out one and the same address for
every heap allocation of size zero: `zerobase`. A status variable that is not
such an allocation has storage of its own (`cell`) or is the field `Status` of a
`JiraMachine` (`field`). -/
inductive StatusLoc where
  | zerobase
  | cell (a : Nat)
  | field (m : MachineLoc)
  deriving DecidableEq, Repr

/-- Go `*JiraMachine`; `none` is nil. -/
abbrev MachinePtr := Option MachineLoc

/-- Go `*JiraMachineList`; `none` is nil, `some a` the list in cell `a`. -/
abbrev ListPtr := Option Nat

/-- Go `*JiraMachineSpec`; `none` is nil. -/
abbrev SpecPtr := Option FieldLoc

/-- Go `*JiraMachineStatus`; `none` is nil. -/
abbrev StatusPtr := Option StatusLoc

/-- An object of the heap. -/
inductive Obj (K : Metav1) where
  | machine (m : JiraMachine K)
  | list (l : JiraMachineList K)
  | spec (s : JiraMachineSpec)
  | status (t : JiraMachineStatus)
  | array (xs : List (JiraMachine K))

/-- The heap: the object at address `a` is the `a`-th entry; allocation
appends. -/
abbrev Heap (K : Metav1) := List (Obj K)

/-- Go `runtime.Object` restricted to the package's two implementations: the
nil interface, or an interface whose dynamic type is `*JiraMachine` or
`*JiraMachineList` and whose dynamic value is the pointer (possibly nil). -/
inductive RuntimeObject where
  | nil
  | jiraMachine (p : MachinePtr)
  | jiraMachineList (p : ListPtr)
  deriving DecidableEq, Repr

/-- Zero value of `JiraMachineSpec`. -/
def JiraMachineSpec.zero : JiraMachineSpec := { Foo := "" }

/-- Zero value of `JiraMachineStatus`. -/
def JiraMachineStatus.zero : JiraMachineStatus := {}

/-- Zero value of `JiraMachine`. -/
def JiraMachine.zero (K : Metav1) : JiraMachine K :=
  { TypeMeta := K.zeroTypeMeta, ObjectMeta := K.zeroObjectMeta,
    Spec := JiraMachineSpec.zero, Status := JiraMachineStatus.zero }

/-- Zero value of `JiraMachineList`. -/
def JiraMachineList.zero (K : Metav1) : JiraMachineList K :=
  { TypeMeta := K.zeroTypeMeta, ListMeta := K.zeroListMeta, Items := none }

/-- Read of the `JiraMachine` variable at a location. -/
def Heap.readMachine {K : Metav1} (h : Heap K) : MachineLoc → Except Fault (JiraMachine K)
  | .cell a =>
    match h[a]? with
    | some (.machine m) => .ok m
    | _ => .error .invalidAddress
  | .elem arr i =>
    match h[arr]? with
    | some (.array xs) =>
      match xs[i]? with
      | some m => .ok m
      | none => .error .invalidAddress
    | _ => .error .invalidAddress

/-- Write of the `JiraMachine` variable at a location. -/
def Heap.writeMachine {K : Metav1} (h : Heap K) : MachineLoc → JiraMachine K → Except Fault (Heap K)
  | .cell a, v =>
    match h[a]? with
    | some (.machine _) => .ok (h.set a (.machine v))
    | _ => .error .invalidAddress
  | .elem arr i, v =>
    match h[arr]? with
    | some (.array xs) =>
      if i < xs.length then .ok (h.set arr (.array (xs.set i v))) else .error .invalidAddress
    | _ => .error .invalidAddress

/-- Go `*p` as a value, `p : *JiraMachine`. -/
def Heap.loadMachine {K : Metav1} (h : Heap K) : MachinePtr → Except Fault (JiraMachine K)
  | none => .error .nilDereference
  | some l => h.readMachine l

/-- Go `*p = v`, `p : *JiraMachine`. -/
def Heap.storeMachine {K : Metav1} (h : Heap K) : MachinePtr → JiraMachine K → Except Fault (Heap K)
  | none, _ => .error .nilDereference
  | some l, v => h.writeMachine l v

/-- Go `*p` as a value, `p : *JiraMachineList`. -/
def Heap.loadList {K : Metav1} (h : Heap K) : ListPtr → Except Fault (JiraMachineList K)
  | none => .error .nilDereference
  | some a =>
    match h[a]? with
    | some (.list l) => .ok l
    | _ => .error .invalidAddress

/-- Go `*p = v`, `p : *JiraMachineList`. -/
def Heap.storeList {K : Metav1} (h : Heap K) : ListPtr → JiraMachineList K → Except Fault (Heap K)
  | none, _ => .error .nilDereference
  | some a, v =>
    match h[a]? with
    | some (.list _) => .ok (h.set a (.list v))
    | _ => .error .invalidAddress

/-- Go `*p` as a value, `p : *JiraMachineSpec`. -/
def Heap.loadSpec {K : Metav1} (h : Heap K) : SpecPtr → Except Fault JiraMachineSpec
  | none => .error .nilDereference
  | some (.cell a) =>
    match h[a]? with
    | some (.spec s) => .ok s
    | _ => .error .invalidAddress
  | some (.field m) => do
    let v ← h.readMachine m
    pure v.Spec

/-- Go `*p = v`, `p : *JiraMachineSpec`. -/
def Heap.storeSpec {K : Metav1} (h : Heap K) : SpecPtr → JiraMachineSpec → Except Fault (Heap K)
  | none, _ => .error .nilDereference
  | some (.cell a), v =>
    match h[a]? with
    | some (.spec _) => .ok (h.set a (.spec v))
    | _ => .error .invalidAddress
  | some (.field m), v => do
    let w ← h.readMachine m
    h.writeMachine m { w with Spec := v }

/-- Go `*p` as a value, `p : *JiraMachineStatus`. -/
def Heap.loadStatus {K : Metav1} (h : Heap K) : StatusPtr → Except Fault JiraMachineStatus
  | none => .error .nilDereference
  | some .zerobase => .ok {}
  | some (.cell a) =>
    match h[a]? with
    | some (.status t) => .ok t
    | _ => .error .invalidAddress
  | some (.field m) => do
    let v ← h.readMachine m
    pure v.Status

/-- Go `*p = v`, `p : *JiraMachineStatus`. -/
def Heap.storeStatus {K : Metav1} (h : Heap K) : StatusPtr → JiraMachineStatus → Except Fault (Heap K)
  | none, _ => .error .nilDereference
  | some .zerobase, _ => .ok h
  | some (.cell a), v =>
    match h[a]? with
    | some (.status _) => .ok (h.set a (.status v))
    | _ => .error .invalidAddress
  | some (.field m), v => do
    let w ← h.readMachine m
    h.writeMachine m { w with Status := v }

/-- Go `new(JiraMachine)`. -/
def Heap.newMachine {K : Metav1} (h : Heap K) : MachinePtr × Heap K :=
  (some (.cell h.length), h ++ [.machine (JiraMachine.zero K)])

/-- Go `new(JiraMachineList)`. -/
def Heap.newList {K : Metav1} (h : Heap K) : ListPtr × Heap K :=
  (some h.length, h ++ [.list (JiraMachineList.zero K)])

/-- Go `new(JiraMachineSpec)`. -/
def Heap.newSpec {K : Metav1} (h : Heap K) : SpecPtr × Heap K :=
  (some (.cell h.length), h ++ [.spec JiraMachineSpec.zero])

/-- Go `new(JiraMachineStatus)`: an allocation of size zero, which returns the
shared address `StatusLoc.zerobase` and creates no object. -/
def Heap.newStatus {K : Metav1} (h : Heap K) : StatusPtr × Heap K :=
  (some .zerobase, h)

/-- Go `make([]JiraMachine, n)`: a non-nil slice over a new array of `n` zero
values. For `n = 0` the array has no element, so no load or store reaches it. -/
def Heap.makeSlice {K : Metav1} (h : Heap K) (n : Nat) : Option Slice × Heap K :=
  (some { arr := h.length, off := 0, len := n, cap := n },
   h ++ [.array (List.replicate n (JiraMachine.zero K))])

/-- Go `len(s)` of a slice value. -/
def sliceLen : Option Slice → Nat
  | none => 0
  | some s => s.len

/-- Go `&s[i]` of a slice value, with its bounds check. -/
def sliceIndex : Option Slice → Nat → Except Fault MachinePtr
  | none, _ => .error .indexOutOfRange
  | some s, i => if i < s.len then .ok (some (.elem s.arr (s.off + i))) else .error .indexOutOfRange

/-- Go: `func (in *JiraMachine) DeepCopyInto(out *JiraMachine)`. -/
def JiraMachine.DeepCopyInto (K : Metav1) (inp out : MachinePtr) (h : Heap K) :
    Except Fault (Heap K) := do
  -- *out = *in
  let vi ← h.loadMachine inp
  let h ← h.storeMachine out vi
  -- out.TypeMeta = in.TypeMeta
  let vi ← h.loadMachine inp
  let vo ← h.loadMachine out
  let h ← h.storeMachine out { vo with TypeMeta := vi.TypeMeta }
  -- in.ObjectMeta.DeepCopyInto(&out.ObjectMeta)
  let vi ← h.loadMachine inp
  let vo ← h.loadMachine out
  let h ← h.storeMachine out
    { vo with ObjectMeta := K.ObjectMeta_DeepCopyInto vi.ObjectMeta vo.ObjectMeta }
  -- out.Spec = in.Spec
  let vi ← h.loadMachine inp
  let vo ← h.loadMachine out
  let h ← h.storeMachine out { vo with Spec := vi.Spec }
  -- out.Status = in.Status
  let vi ← h.loadMachine inp
  let vo ← h.loadMachine out
  h.storeMachine out { vo with Status := vi.Status }

/-- Go: `func (in *JiraMachine) DeepCopy() *JiraMachine`. -/
def JiraMachine.DeepCopy (K : Metav1) (inp : MachinePtr) (h : Heap K) :
    Except Fault (MachinePtr × Heap K) :=
  -- if in == nil { return nil }
  if inp = none then pure (none, h)
  else do
    -- out := new(JiraMachine)
    let (out, h) := h.newMachine
    -- in.DeepCopyInto(out)
    let h ← JiraMachine.DeepCopyInto K inp out h
    -- return out
    pure (out, h)

/-- Go: `func (in *JiraMachine) DeepCopyObject() runtime.Object`. -/
def JiraMachine.DeepCopyObject (K : Metav1) (inp : MachinePtr) (h : Heap K) :
    Except Fault (RuntimeObject × Heap K) := do
  -- if c := in.DeepCopy(); c != nil { return c }
  let (c, h) ← JiraMachine.DeepCopy K inp h
  if c ≠ none then pure (.jiraMachine c, h)
  -- return nil
  else pure (.nil, h)

/-- The body of `for i := range *in { (*in)[i].DeepCopyInto(&(*out)[i]) }` run
for the indices `is` in turn; `inp` and `out` are the lists whose `Items`
fields the shadowing `in, out := &in.Items, &out.Items` points to. -/
def JiraMachineList.copyItems (K : Metav1) (inp out : ListPtr) :
    List Nat → Heap K → Except Fault (Heap K)
  | [], h => pure h
  | i :: is, h => do
    -- (*in)[i]
    let li ← h.loadList inp
    let pi ← sliceIndex li.Items i
    -- &(*out)[i]
    let lo ← h.loadList out
    let po ← sliceIndex lo.Items i
    let h ← JiraMachine.DeepCopyInto K pi po h
    JiraMachineList.copyItems K inp out is h

/-- Go: `func (in *JiraMachineList) DeepCopyInto(out *JiraMachineList)`. -/
def JiraMachineList.DeepCopyInto (K : Metav1) (inp out : ListPtr) (h : Heap K) :
    Except Fault (Heap K) := do
  -- *out = *in
  let vi ← h.loadList inp
  let h ← h.storeList out vi
  -- out.TypeMeta = in.TypeMeta
  let vi ← h.loadList inp
  let vo ← h.loadList out
  let h ← h.storeList out { vo with TypeMeta := vi.TypeMeta }
  -- in.ListMeta.DeepCopyInto(&out.ListMeta)
  let vi ← h.loadList inp
  let vo ← h.loadList out
  let h ← h.storeList out
    { vo with ListMeta := K.ListMeta_DeepCopyInto vi.ListMeta vo.ListMeta }
  -- if in.Items != nil {
  let vi ← h.loadList inp
  if vi.Items ≠ none then
    -- in, out := &in.Items, &out.Items
    -- *out = make([]JiraMachine, len(*in))
    let vi ← h.loadList inp
    let (s, h) := h.makeSlice (sliceLen vi.Items)
    let vo ← h.loadList out
    let h ← h.storeList out { vo with Items := s }
    -- for i := range *in { (*in)[i].DeepCopyInto(&(*out)[i]) }
    let vi ← h.loadList inp
    JiraMachineList.copyItems K inp out (List.range (sliceLen vi.Items)) h
  else pure h

/-- Go: `func (in *JiraMachineList) DeepCopy() *JiraMachineList`. -/
def JiraMachineList.DeepCopy (K : Metav1) (inp : ListPtr) (h : Heap K) :
    Except Fault (ListPtr × Heap K) :=
  -- if in == nil { return nil }
  if inp = none then pure (none, h)
  else do
    -- out := new(JiraMachineList)
    let (out, h) := h.newList
    -- in.DeepCopyInto(out)
    let h ← JiraMachineList.DeepCopyInto K inp out h
    -- return out
    pure (out, h)

/-- Go: `func (in *JiraMachineList) DeepCopyObject() runtime.Object`. -/
def JiraMachineList.DeepCopyObject (K : Metav1) (inp : ListPtr) (h : Heap K) :
    Except Fault (RuntimeObject × Heap K) := do
  -- if c := in.DeepCopy(); c != nil { return c }
  let (c, h) ← JiraMachineList.DeepCopy K inp h
  if c ≠ none then pure (.jiraMachineList c, h)
  -- return nil
  else pure (.nil, h)

/-- Go: `func (in *JiraMachineSpec) DeepCopyInto(out *JiraMachineSpec)`. -/
def JiraMachineSpec.DeepCopyInto (K : Metav1) (inp out : SpecPtr) (h : Heap K) :
    Except Fault (Heap K) := do
  -- *out = *in
  let vi ← h.loadSpec inp
  h.storeSpec out vi

/-- Go: `func (in *JiraMachineSpec) DeepCopy() *JiraMachineSpec`. -/
def JiraMachineSpec.DeepCopy (K : Metav1) (inp : SpecPtr) (h : Heap K) :
    Except Fault (SpecPtr × Heap K) :=
  -- if in == nil { return nil }
  if inp = none then pure (none, h)
  else do
    -- out := new(JiraMachineSpec)
    let (out, h) := h.newSpec
    -- in.DeepCopyInto(out)
    let h ← JiraMachineSpec.DeepCopyInto K inp out h
    -- return out
    pure (out, h)

/-- Go: `func (in *JiraMachineStatus) DeepCopyInto(out *JiraMachineStatus)`. -/
def JiraMachineStatus.DeepCopyInto (K : Metav1) (inp out : StatusPtr) (h : Heap K) :
    Except Fault (Heap K) := do
  -- *out = *in
  let vi ← h.loadStatus inp
  h.storeStatus out vi

/-- Go: `func (in *JiraMachineStatus) DeepCopy() *JiraMachineStatus`. -/
def JiraMachineStatus.DeepCopy (K : Metav1) (inp : StatusPtr) (h : Heap K) :
    Except Fault (StatusPtr × Heap K) :=
  -- if in == nil { return nil }
  if inp = none then pure (none, h)
  else do
    -- out := new(JiraMachineStatus)
    let (out, h) := h.newStatus
    -- in.DeepCopyInto(out)
    let h ← JiraMachineStatus.DeepCopyInto K inp out h
    -- return out
    pure (out, h)

/-- The heap after a write of `v` at a location that holds a `JiraMachine`
variable: the total form of `Heap.writeMachine`. -/
def Heap.putMachine {K : Metav1} (h : Heap K) : MachineLoc → JiraMachine K → Heap K
  | .cell a, v => h.set a (.machine v)
  | .elem arr i, v =>
    match h[arr]? with
    | some (.array xs) => h.set arr (.array (xs.set i v))
    | _ => h

/-- The heap after a write of `v` at a location that holds a `JiraMachineSpec`
variable: the total form of `Heap.storeSpec`. -/
def Heap.putSpec {K : Metav1} (h : Heap K) : FieldLoc → JiraMachineSpec → Heap K
  | .cell a, v => h.set a (.spec v)
  | .field m, v =>
    match h.readMachine m with
    | .ok w => h.putMachine m { w with Spec := v }
    | .error _ => h

/-- The heap after a write of `v` at a location that holds a
`JiraMachineStatus` variable: the total form of `Heap.storeStatus`. -/
def Heap.putStatus {K : Metav1} (h : Heap K) : StatusLoc → JiraMachineStatus → Heap K
  | .zerobase, _ => h
  | .cell a, v => h.set a (.status v)
  | .field m, v =>
    match h.readMachine m with
    | .ok w => h.putMachine m { w with Status := v }
    | .error _ => h

/-- The value `JiraMachine.DeepCopyInto` leaves in its destination when its
receiver holds `x` (theorem `JiraMachine_DeepCopyInto_eq`): every field of `x`,
the `ObjectMeta` being what the external `ObjectMeta.DeepCopyInto` makes of a
destination that already holds `x.ObjectMeta`. -/
def JiraMachine.copied {K : Metav1} (x : JiraMachine K) : JiraMachine K :=
  { x with ObjectMeta := K.ObjectMeta_DeepCopyInto x.ObjectMeta x.ObjectMeta }

/-- The value `JiraMachineList.DeepCopyInto` leaves in its destination when
its receiver holds `l` and the destination's `Items` end up being `s`. -/
def JiraMachineList.copied {K : Metav1} (l : JiraMachineList K) (s : Option Slice) :
    JiraMachineList K :=
  { TypeMeta := l.TypeMeta, ListMeta := K.ListMeta_DeepCopyInto l.ListMeta l.ListMeta,
    Items := s }

/-- The elements of a slice `s` over the array contents `xs`. -/
def Slice.elems {α : Type} (s : Slice) (xs : List α) : List α :=
  (xs.drop s.off).take s.len

/-- An instance of the external package for evaluation on concrete inputs:
`TypeMeta` is the pair (kind, apiVersion), `ObjectMeta` a name with its labels,
`ListMeta` a resource version, and both external copy functions leave in the
destination a value equal to the receiver. -/
def Metav1.plain : Metav1 :=
  { TypeMeta := String × String
    ObjectMeta := String × List (String × String)
    ListMeta := String
    zeroTypeMeta := ("", "")
    zeroObjectMeta := ("", [])
    zeroListMeta := ""
    ObjectMeta_DeepCopyInto := fun a _ => a
    ListMeta_DeepCopyInto := fun a _ => a }

/-- A `JiraMachine` over `Metav1.plain` named `name` with `Spec.Foo = foo`. -/
def sampleMachine (name foo : String) : JiraMachine Metav1.plain :=
  { TypeMeta := ("JiraMachine", "v1alpha1"), ObjectMeta := (name, [("app", "jira")]),
    Spec := { Foo := foo }, Status := {} }

/-- A `JiraMachineList` over `Metav1.plain` with the given `Items`. -/
def sampleList (items : Option Slice) : JiraMachineList Metav1.plain :=
  { TypeMeta := ("JiraMachineList", "v1alpha1"), ListMeta := "42", Items := items }

/-- A heap over `Metav1.plain`: a list in cell 0 whose `Items` are the two
machines of the array at address 1, a machine in cell 2, a spec in cell 3, a
status in cell 4, and a list with nil `Items` in cell 5. -/
def sampleHeap : Heap Metav1.plain :=
  [ .list (sampleList (some { arr := 1, off := 0, len := 2, cap := 2 })),
    .array [sampleMachine "m0" "a", sampleMachine "m1" "b"],
    .machine (sampleMachine "m2" "c"),
    .spec { Foo := "d" },
    .status {},
    .list (sampleList none) ]

/-- A heap over `Metav1.plain`: in cell 0 a list whose `Items` are the non-nil
empty slice `items[:0]` of the two-element array at address 1, and in cell 2 a
list with nil `Items`. -/
def emptyItemsHeap : Heap Metav1.plain :=
  [ .list (sampleList (some { arr := 1, off := 0, len := 0, cap := 2 })),
    .array [sampleMachine "m0" "a", sampleMachine "m1" "b"],
    .list (sampleList none) ]

/-- A slice value of a well-formed Go state: nil, or a slice that lies within
its backing array. -/
def Heap.validSlice {K : Metav1} (h : Heap K) : Option Slice → Bool
  | none => true
  | some s =>
    match h[s.arr]? with
    | some (.array xs) => decide (s.off + s.len ≤ xs.length)
    | _ => false

/-- A `*JiraMachine` of a well-formed Go state: nil, or the address of a live
`JiraMachine` variable. -/
def Heap.validMachinePtr {K : Metav1} (h : Heap K) : MachinePtr → Bool
  | none => true
  | some l =>
    match h.readMachine l with
    | .ok _ => true
    | .error _ => false

/-- A `*JiraMachineList` of a well-formed Go state: nil, or the address of a
live `JiraMachineList` variable whose `Items` are a valid slice value. -/
def Heap.validListPtr {K : Metav1} (h : Heap K) : ListPtr → Bool
  | none => true
  | some a =>
    match h.loadList (some a) with
    | .ok l => h.validSlice l.Items
    | .error _ => false

/-- A `*JiraMachineSpec` of a well-formed Go state: nil, or the address of a
live `JiraMachineSpec` variable. -/
def Heap.validSpecPtr {K : Metav1} (h : Heap K) : SpecPtr → Bool
  | none => true
  | some l =>
    match h.loadSpec (some l) with
    | .ok _ => true
    | .error _ => false

/-- A `*JiraMachineStatus` of a well-formed Go state: nil, or the address of a
live `JiraMachineStatus` variable. -/
def Heap.validStatusPtr {K : Metav1} (h : Heap K) : StatusPtr → Bool
  | none => true
  | some l =>
    match h.loadStatus (some l) with
    | .ok _ => true
    | .error _ => false

/-! ## Heap lemmas -/

theorem Heap.writeMachine_eq_put {K : Metav1} (h : Heap K) (l : MachineLoc)
    (m v : JiraMachine K) (hr : h.readMachine l = .ok m) :
    h.writeMachine l v = .ok (h.putMachine l v) := by
  cases l with
  | cell a =>
    simp only [Heap.readMachine, Heap.writeMachine, Heap.putMachine] at hr ⊢
    split at hr <;> simp_all
  | elem arr i =>
    simp only [Heap.readMachine, Heap.writeMachine, Heap.putMachine] at hr ⊢
    split at hr
    · rename_i xs hx
      split at hr
      · rename_i m2 hm
        have hi : i < xs.length := (List.getElem?_eq_some_iff.mp hm).1
        simp [hx, hi]
      · simp at hr
    · simp at hr

theorem Heap.length_putMachine {K : Metav1} (h : Heap K) (l : MachineLoc) (v : JiraMachine K) :
    (h.putMachine l v).length = h.length := by
  cases l with
  | cell a => simp [Heap.putMachine]
  | elem arr i =>
    simp only [Heap.putMachine]
    split <;> simp

theorem Heap.readMachine_put {K : Metav1} (h : Heap K) (l l2 : MachineLoc)
    (m v : JiraMachine K) (hr : h.readMachine l = .ok m) :
    (h.putMachine l v).readMachine l2 = if l2 = l then .ok v else h.readMachine l2 := by
  cases l with
  | cell a =>
    simp only [Heap.readMachine] at hr
    split at hr
    · rename_i m1 hm
      have ha : a < h.length := (List.getElem?_eq_some_iff.mp hm).1
      cases l2 with
      | cell b =>
        by_cases hab : b = a
        · subst hab; simp [Heap.readMachine, Heap.putMachine, ha]
        · have hba : a ≠ b := fun e => hab e.symm
          simp [Heap.readMachine, Heap.putMachine, hab, List.getElem?_set_ne hba]
      | elem arr i =>
        by_cases hab : arr = a
        · subst hab; simp [Heap.readMachine, Heap.putMachine, ha, hm]
        · have hba : a ≠ arr := fun e => hab e.symm
          simp [Heap.readMachine, Heap.putMachine, List.getElem?_set_ne hba]
    · simp at hr
  | elem arr i =>
    simp only [Heap.readMachine] at hr
    split at hr
    · rename_i xs hx
      split at hr
      · rename_i m2 hm
        have hi : i < xs.length := (List.getElem?_eq_some_iff.mp hm).1
        have ha : arr < h.length := (List.getElem?_eq_some_iff.mp hx).1
        cases l2 with
        | cell b =>
          by_cases hab : b = arr
          · subst hab; simp [Heap.readMachine, Heap.putMachine, ha, hx]
          · have hba : arr ≠ b := fun e => hab e.symm
            simp [Heap.readMachine, Heap.putMachine, hx, List.getElem?_set_ne hba]
        | elem arr2 j =>
          by_cases hab : arr2 = arr
          · subst hab
            by_cases hij : j = i
            · subst hij; simp [Heap.readMachine, Heap.putMachine, ha, hx, hi]
            · have hji : i ≠ j := fun e => hij e.symm
              simp [Heap.readMachine, Heap.putMachine, ha, hx, hij, List.getElem?_set_ne hji]
          · have hba : arr ≠ arr2 := fun e => hab e.symm
            simp [Heap.readMachine, Heap.putMachine, hx, hab, List.getElem?_set_ne hba]
      · simp at hr
    · simp at hr

theorem Heap.putMachine_put {K : Metav1} (h : Heap K) (l : MachineLoc) (v w : JiraMachine K) :
    (h.putMachine l v).putMachine l w = h.putMachine l w := by
  cases l with
  | cell a => simp [Heap.putMachine, List.set_set]
  | elem arr i =>
    cases hx : h[arr]? with
    | none => simp [Heap.putMachine, hx]
    | some o =>
      have ha : arr < h.length := (List.getElem?_eq_some_iff.mp hx).1
      cases o <;> simp [Heap.putMachine, hx, ha, List.set_set]

theorem Heap.readMachine_put_self {K : Metav1} (h : Heap K) (l : MachineLoc)
    (m v : JiraMachine K) (hr : h.readMachine l = .ok m) :
    (h.putMachine l v).readMachine l = .ok v := by
  rw [Heap.readMachine_put h l l m v hr]; simp

theorem Heap.readMachine_put_ne {K : Metav1} (h : Heap K) (l l2 : MachineLoc)
    (m v : JiraMachine K) (hr : h.readMachine l = .ok m) (hne : l2 ≠ l) :
    (h.putMachine l v).readMachine l2 = h.readMachine l2 := by
  rw [Heap.readMachine_put h l l2 m v hr]; simp [hne]

theorem JiraMachine_DeepCopyInto_eq {K : Metav1} (h : Heap K) (li lo : MachineLoc)
    (x y : JiraMachine K) (hi : h.readMachine li = .ok x) (ho : h.readMachine lo = .ok y) :
    JiraMachine.DeepCopyInto K (some li) (some lo) h = .ok (h.putMachine lo x.copied) := by
  have Ro : ∀ v, (h.putMachine lo v).readMachine lo = .ok v :=
    fun v => Heap.readMachine_put_self h lo y v ho
  have Ri : ∀ v, (h.putMachine lo v).readMachine li = if li = lo then .ok v else .ok x := by
    intro v
    rw [Heap.readMachine_put h lo li y v ho, hi]
  have W : ∀ v w, (h.putMachine lo v).writeMachine lo w = .ok (h.putMachine lo w) := by
    intro v w
    rw [Heap.writeMachine_eq_put _ lo v w (Ro v), Heap.putMachine_put]
  simp only [JiraMachine.DeepCopyInto, Heap.loadMachine, Heap.storeMachine, bind, Except.bind,
    hi, Heap.writeMachine_eq_put h lo y _ ho, Ro, Ri, W]
  by_cases e : li = lo
  · simp only [e, if_true, W]; rfl
  · simp only [e, if_false, W]; rfl

theorem Heap.loadList_some_iff {K : Metav1} (h : Heap K) (a : Nat) (l : JiraMachineList K) :
    h.loadList (some a) = .ok l ↔ h[a]? = some (.list l) := by
  simp only [Heap.loadList]
  constructor
  · intro hl
    split at hl
    · rename_i l2 h2
      injection hl with e
      rw [h2, e]
    · simp at hl
  · intro hl
    rw [hl]

theorem Heap.readMachine_elem_iff {K : Metav1} (h : Heap K) (arr i : Nat) (m : JiraMachine K) :
    h.readMachine (.elem arr i) = .ok m ↔
      ∃ xs, h[arr]? = some (.array xs) ∧ xs[i]? = some m := by
  simp only [Heap.readMachine]
  constructor
  · intro hr
    split at hr
    · rename_i xs hx
      split at hr
      · rename_i m2 hm
        injection hr with e
        exact ⟨xs, hx, by rw [hm, e]⟩
      · simp at hr
    · simp at hr
  · rintro ⟨xs, hx, hm⟩
    rw [hx]; simp only []; rw [hm]

theorem Heap.storeList_eq_set {K : Metav1} (h : Heap K) (b : Nat) (l v : JiraMachineList K)
    (ho : h.loadList (some b) = .ok l) :
    h.storeList (some b) v = .ok (h.set b (.list v)) := by
  rw [Heap.loadList_some_iff] at ho
  simp [Heap.storeList, ho]

theorem Heap.loadList_set {K : Metav1} (h : Heap K) (a b : Nat) (l v : JiraMachineList K)
    (ho : h.loadList (some b) = .ok l) :
    Heap.loadList (h.set b (.list v)) (some a) = if a = b then .ok v else h.loadList (some a) := by
  rw [Heap.loadList_some_iff] at ho
  have hb : b < h.length := (List.getElem?_eq_some_iff.mp ho).1
  by_cases e : a = b
  · subst e; simp [Heap.loadList, hb]
  · have e2 : b ≠ a := fun c => e c.symm
    simp [Heap.loadList, e, List.getElem?_set_ne e2]

theorem Heap.loadList_append {K : Metav1} (h t : Heap K) (a : Nat) (l : JiraMachineList K)
    (hl : h.loadList (some a) = .ok l) : (h ++ t).loadList (some a) = .ok l := by
  rw [Heap.loadList_some_iff] at hl ⊢
  have ha : a < h.length := (List.getElem?_eq_some_iff.mp hl).1
  rw [List.getElem?_append_left ha, hl]

theorem Heap.readMachine_append {K : Metav1} (h t : Heap K) (l : MachineLoc) (m : JiraMachine K)
    (hr : h.readMachine l = .ok m) : (h ++ t).readMachine l = .ok m := by
  cases l with
  | cell a =>
    simp only [Heap.readMachine] at hr ⊢
    split at hr
    · rename_i m1 hm
      have ha : a < h.length := (List.getElem?_eq_some_iff.mp hm).1
      rw [List.getElem?_append_left ha, hm]; exact hr
    · simp at hr
  | elem arr i =>
    rw [Heap.readMachine_elem_iff] at hr ⊢
    obtain ⟨xs, hx, hm⟩ := hr
    have ha : arr < h.length := (List.getElem?_eq_some_iff.mp hx).1
    exact ⟨xs, by rw [List.getElem?_append_left ha, hx], hm⟩

theorem Heap.loadList_putMachine {K : Metav1} (h : Heap K) (l : MachineLoc) (m v : JiraMachine K)
    (hr : h.readMachine l = .ok m) (a : Nat) :
    (h.putMachine l v).loadList (some a) = h.loadList (some a) := by
  cases l with
  | cell c =>
    simp only [Heap.readMachine] at hr
    split at hr
    · rename_i m1 hm
      have hc : c < h.length := (List.getElem?_eq_some_iff.mp hm).1
      by_cases e : c = a
      · subst e; simp [Heap.loadList, Heap.putMachine, hc, hm]
      · simp [Heap.loadList, Heap.putMachine, List.getElem?_set_ne e]
    · simp at hr
  | elem arr i =>
    rw [Heap.readMachine_elem_iff] at hr
    obtain ⟨xs, hx, hm⟩ := hr
    have hc : arr < h.length := (List.getElem?_eq_some_iff.mp hx).1
    by_cases e : arr = a
    · subst e; simp [Heap.loadList, Heap.putMachine, hc, hx]
    · simp [Heap.loadList, Heap.putMachine, hx, List.getElem?_set_ne e]

theorem List.set_of_getElem? {α : Type} (l : List α) (i : Nat) (a : α) (h : l[i]? = some a) :
    l.set i a = l := by
  apply List.ext_getElem?
  intro j
  by_cases e : i = j
  · subst e
    have hi : i < l.length := (List.getElem?_eq_some_iff.mp h).1
    rw [List.getElem?_set_self hi, h]
  · rw [List.getElem?_set_ne e]

theorem JiraMachineList.copyItems_eq {K : Metav1} (a b : Nat) (La Lb : JiraMachineList K)
    (sa sb : Slice) (xs : List (JiraMachine K))
    (hsa : La.Items = some sa) (hsb : Lb.Items = some sb) (hne : sa.arr ≠ sb.arr) :
    ∀ (is : List Nat) (g : Heap K) (ys : List (JiraMachine K)),
      g.loadList (some a) = .ok La → g.loadList (some b) = .ok Lb →
      g[sa.arr]? = some (.array xs) → g[sb.arr]? = some (.array ys) →
      (∀ i ∈ is, i < sa.len ∧ i < sb.len ∧ sa.off + i < xs.length ∧ sb.off + i < ys.length) →
      JiraMachineList.copyItems K (some a) (some b) is g =
        .ok (List.set g sb.arr (.array (is.foldl
          (fun zs i => zs.set (sb.off + i)
            (JiraMachine.copied (xs.getD (sa.off + i) (JiraMachine.zero K)))) ys))) := by
  intro is
  induction is with
  | nil =>
    intro g ys _ _ _ hy _
    simp only [JiraMachineList.copyItems, List.foldl_nil]
    rw [List.set_of_getElem? g sb.arr _ hy]
    rfl
  | cons i is ih =>
    intro g ys ha hb hx hy hbd
    obtain ⟨h1, h2, h3, h4⟩ := hbd i (List.mem_cons_self i is)
    have rx : g.readMachine (.elem sa.arr (sa.off + i)) = .ok (xs.getD (sa.off + i) (JiraMachine.zero K)) := by
      rw [Heap.readMachine_elem_iff]
      refine ⟨xs, hx, ?_⟩
      rw [List.getD_eq_getElem?_getD, List.getElem?_eq_getElem h3]
      rfl
    have ry : g.readMachine (.elem sb.arr (sb.off + i)) = .ok (ys.getD (sb.off + i) (JiraMachine.zero K)) := by
      rw [Heap.readMachine_elem_iff]
      refine ⟨ys, hy, ?_⟩
      rw [List.getD_eq_getElem?_getD, List.getElem?_eq_getElem h4]
      rfl
    have hsb2 : sb.arr < g.length := (List.getElem?_eq_some_iff.mp hy).1
    simp only [JiraMachineList.copyItems, bind, Except.bind, ha, hb, hsa, hsb, sliceIndex, h1, h2,
      if_true, JiraMachine_DeepCopyInto_eq g _ _ _ _ rx ry]
    have hp : g.putMachine (.elem sb.arr (sb.off + i))
        (JiraMachine.copied (xs.getD (sa.off + i) (JiraMachine.zero K))) =
        List.set g sb.arr (.array (ys.set (sb.off + i)
          (JiraMachine.copied (xs.getD (sa.off + i) (JiraMachine.zero K))))) := by
      simp [Heap.putMachine, hy]
    have ha2 := Heap.loadList_putMachine g _ _
      (JiraMachine.copied (xs.getD (sa.off + i) (JiraMachine.zero K))) ry a
    have hb2 := Heap.loadList_putMachine g _ _
      (JiraMachine.copied (xs.getD (sa.off + i) (JiraMachine.zero K))) ry b
    rw [hp] at ha2 hb2
    rw [ha] at ha2
    rw [hb] at hb2
    rw [hp]
    rw [ih _ (ys.set (sb.off + i) (JiraMachine.copied (xs.getD (sa.off + i) (JiraMachine.zero K))))
      ha2 hb2 ?_ ?_ ?_]
    · rw [List.set_set]; rfl
    · rw [List.getElem?_set_ne (fun e => hne e.symm)]; exact hx
    · rw [List.getElem?_set_self hsb2]
    · intro j hj
      obtain ⟨j1, j2, j3, j4⟩ := hbd j (List.mem_cons_of_mem i hj)
      exact ⟨j1, j2, j3, by rw [List.length_set]; exact j4⟩

/-- Overwriting positions `0 .. n-1` of a list of length `n` one after the
other yields the list of the written values. -/
theorem List.foldl_set_range {α : Type} (F : Nat → α) (n : Nat) :
    ∀ (ys : List α), ys.length = n →
      (List.range n).foldl (fun zs i => zs.set (0 + i) (F i)) ys = (List.range n).map F := by
  have key : ∀ (k : Nat) (ys : List α) (j : Nat),
      (((List.range k).foldl (fun zs i => zs.set i (F i)) ys)[j]? =
        if j < k ∧ j < ys.length then some (F j) else ys[j]?) ∧
      ((List.range k).foldl (fun zs i => zs.set i (F i)) ys).length = ys.length := by
    intro k
    induction k with
    | zero => intro ys j; simp
    | succ k ih =>
      intro ys j
      rw [List.range_succ, List.foldl_append]
      simp only [List.foldl_cons, List.foldl_nil, List.length_set]
      refine ⟨?_, (ih ys j).2⟩
      rw [List.getElem?_set, (ih ys j).1, (ih ys j).2]
      by_cases e : k = j
      · subst e
        by_cases e2 : k < ys.length
        · simp [e2]
        · simp only [if_true, e2, if_false, and_false]
          exact (List.getElem?_eq_none (Nat.le_of_not_lt e2)).symm
      · simp only [e, if_false]
        by_cases e3 : j < k
        · have : j < k + 1 := by omega
          simp [e3, this]
        · have : ¬ j < k + 1 := by omega
          simp [e3, this]
  intro ys hn
  simp only [Nat.zero_add]
  apply List.ext_getElem?
  intro j
  rw [(key n ys j).1, hn]
  by_cases e : j < n
  · simp [e, List.getElem?_range e]
  · have hj : ys.length ≤ j := by omega
    simp only [e, and_self, if_false]
    rw [List.getElem?_eq_none hj, List.getElem?_eq_none]
    simp; omega

theorem Slice.map_range_eq {α β : Type} (s : Slice) (xs : List α) (d : α) (G : α → β)
    (hb : s.off + s.len ≤ xs.length) :
    (List.range s.len).map (fun i => G (xs.getD (s.off + i) d)) = (s.elems xs).map G := by
  apply List.ext_getElem?
  intro j
  simp only [Slice.elems, List.getElem?_map, List.getElem?_take, List.getElem?_drop]
  by_cases e : j < s.len
  · have hj : s.off + j < xs.length := by omega
    simp [e, List.getElem?_range e, List.getD_eq_getElem?_getD, List.getElem?_eq_getElem hj]
  · rw [List.getElem?_eq_none (by simpa using Nat.le_of_not_lt e)]
    simp [e]

theorem Slice.length_elems {α : Type} (s : Slice) (xs : List α)
    (hb : s.off + s.len ≤ xs.length) : (s.elems xs).length = s.len := by
  simp [Slice.elems]; omega

theorem Slice.getElem?_elems {α : Type} (s : Slice) (xs : List α) (i : Nat) (hi : i < s.len) :
    (s.elems xs)[i]? = xs[s.off + i]? := by
  simp [Slice.elems, List.getElem?_take, hi]

/-- Closed form of `JiraMachineList.DeepCopyInto` when the receiver's `Items`
are nil (receiver and destination equal or not). -/
theorem JiraMachineList.DeepCopyInto_nil_eq {K : Metav1} (h : Heap K) (a b : Nat)
    (L Lb : JiraMachineList K) (hi : h.loadList (some a) = .ok L)
    (ho : h.loadList (some b) = .ok Lb) (hnil : L.Items = none) :
    JiraMachineList.DeepCopyInto K (some a) (some b) h =
      .ok (List.set h b (.list (L.copied none))) := by
  have Lo : ∀ v, Heap.loadList (List.set h b (.list v)) (some b) = .ok v := by
    intro v; rw [Heap.loadList_set h b b Lb v ho]; simp
  have Li : ∀ v, Heap.loadList (List.set h b (.list v)) (some a) =
      if a = b then .ok v else .ok L := by
    intro v; rw [Heap.loadList_set h a b Lb v ho, hi]
  have W : ∀ v w, Heap.storeList (List.set h b (.list v)) (some b) w =
      .ok (List.set h b (.list w)) := by
    intro v w
    rw [Heap.storeList_eq_set _ b v w (Lo v), List.set_set]
  simp only [JiraMachineList.DeepCopyInto, bind, Except.bind, hi,
    Heap.storeList_eq_set h b Lb _ ho, Lo, Li, W]
  by_cases e : a = b
  · subst e
    have hLb : Lb = L := by rw [hi] at ho; injection ho with e; exact e.symm
    subst hLb
    simp [hnil, pure, Except.pure, JiraMachineList.copied]
  · simp [e, hnil, pure, Except.pure, JiraMachineList.copied]

/-- Closed form of `JiraMachineList.DeepCopyInto` when the receiver's `Items`
are a non-nil slice and the destination is another list: the destination's
`Items` become a slice over a new array, at the first free address, that holds
`JiraMachine.copied` of each element in order. -/
theorem JiraMachineList.DeepCopyInto_some_eq {K : Metav1} (h : Heap K) (a b : Nat)
    (L Lb : JiraMachineList K) (s : Slice) (xs : List (JiraMachine K))
    (hi : h.loadList (some a) = .ok L) (ho : h.loadList (some b) = .ok Lb) (hab : a ≠ b)
    (hs : L.Items = some s) (hx : h[s.arr]? = some (.array xs))
    (hbd : s.off + s.len ≤ xs.length) :
    JiraMachineList.DeepCopyInto K (some a) (some b) h =
      .ok (List.set h b (.list (L.copied
              (some { arr := h.length, off := 0, len := s.len, cap := s.len }))) ++
            [.array ((s.elems xs).map JiraMachine.copied)]) := by
  have Lo : ∀ v, Heap.loadList (List.set h b (.list v)) (some b) = .ok v := by
    intro v; rw [Heap.loadList_set h b b Lb v ho]; simp
  have Li : ∀ v, Heap.loadList (List.set h b (.list v)) (some a) = .ok L := by
    intro v; rw [Heap.loadList_set h a b Lb v ho, hi]; simp [hab]
  have W : ∀ v w, Heap.storeList (List.set h b (.list v)) (some b) w =
      .ok (List.set h b (.list w)) := by
    intro v w
    rw [Heap.storeList_eq_set _ b v w (Lo v), List.set_set]
  have hb : b < h.length := by
    rw [Heap.loadList_some_iff] at ho
    exact (List.getElem?_eq_some_iff.mp ho).1
  have hsa : s.arr < h.length := (List.getElem?_eq_some_iff.mp hx).1
  have hsb : s.arr ≠ b := by
    intro e
    rw [Heap.loadList_some_iff] at ho
    rw [e, ho] at hx
    simp at hx
  have Lo2 : ∀ v (t : Heap K), Heap.loadList (List.set h b (.list v) ++ t) (some b) = .ok v :=
    fun v t => Heap.loadList_append _ t b v (Lo v)
  have Li2 : ∀ v (t : Heap K), Heap.loadList (List.set h b (.list v) ++ t) (some a) = .ok L :=
    fun v t => Heap.loadList_append _ t a L (Li v)
  have W2 : ∀ v w (t : Heap K), Heap.storeList (List.set h b (.list v) ++ t) (some b) w =
      .ok (List.set h b (.list w) ++ t) := by
    intro v w t
    rw [Heap.storeList_eq_set _ b v w (Lo2 v t), List.set_append_left _ _ (by simpa using hb),
      List.set_set]
  simp only [JiraMachineList.DeepCopyInto, bind, Except.bind, hi,
    Heap.storeList_eq_set h b Lb _ ho, Lo, Li, W, hs, Heap.makeSlice, Lo2, Li2, W2, sliceLen]
  simp only [ne_eq, reduceCtorEq, not_false_eq_true, if_true, List.length_set]
  rw [JiraMachineList.copyItems_eq a b L _ s { arr := h.length, off := 0, len := s.len, cap := s.len }
    xs hs rfl (Nat.ne_of_lt hsa) (List.range s.len) _
    (List.replicate s.len (JiraMachine.zero K)) (Li2 _ _) (Lo2 _ _)]
  · rw [List.foldl_set_range _ s.len _ (by simp), Slice.map_range_eq s xs _ _ hbd]
    rw [List.set_append_right _ _ (by simp)]
    simp [JiraMachineList.copied]
  · rw [List.getElem?_append_left (by simpa using hsa), List.getElem?_set_ne (fun e => hsb e.symm)]
    exact hx
  · rw [List.getElem?_append_right (by simp)]
    simp
  · intro i hi2
    have : i < s.len := List.mem_range.mp hi2
    simp; omega

/-- The loop of `JiraMachineList.DeepCopyInto` when source and destination
slice are the same one: it completes and rewrites only the backing array. -/
theorem JiraMachineList.copyItems_self {K : Metav1} (a : Nat) (La : JiraMachineList K)
    (sa : Slice) (hsa : La.Items = some sa) :
    ∀ (is : List Nat) (g : Heap K) (ys : List (JiraMachine K)),
      g.loadList (some a) = .ok La → g[sa.arr]? = some (.array ys) →
      (∀ i ∈ is, i < sa.len ∧ sa.off + i < ys.length) →
      ∃ zs, zs.length = ys.length ∧
        JiraMachineList.copyItems K (some a) (some a) is g =
          .ok (List.set g sa.arr (.array zs)) := by
  intro is
  induction is with
  | nil =>
    intro g ys _ hy _
    refine ⟨ys, rfl, ?_⟩
    simp only [JiraMachineList.copyItems]
    rw [List.set_of_getElem? g sa.arr _ hy]
    rfl
  | cons i is ih =>
    intro g ys ha hy hbd
    obtain ⟨h1, h4⟩ := hbd i (List.mem_cons_self i is)
    have ry : g.readMachine (.elem sa.arr (sa.off + i)) =
        .ok (ys.getD (sa.off + i) (JiraMachine.zero K)) := by
      rw [Heap.readMachine_elem_iff]
      refine ⟨ys, hy, ?_⟩
      rw [List.getD_eq_getElem?_getD, List.getElem?_eq_getElem h4]
      rfl
    have hsb2 : sa.arr < g.length := (List.getElem?_eq_some_iff.mp hy).1
    simp only [JiraMachineList.copyItems, bind, Except.bind, ha, hsa, sliceIndex, h1,
      if_true, JiraMachine_DeepCopyInto_eq g _ _ _ _ ry ry]
    have hp : g.putMachine (.elem sa.arr (sa.off + i))
        (JiraMachine.copied (ys.getD (sa.off + i) (JiraMachine.zero K))) =
        List.set g sa.arr (.array (ys.set (sa.off + i)
          (JiraMachine.copied (ys.getD (sa.off + i) (JiraMachine.zero K))))) := by
      simp [Heap.putMachine, hy]
    have ha2 := Heap.loadList_putMachine g _ _
      (JiraMachine.copied (ys.getD (sa.off + i) (JiraMachine.zero K))) ry a
    rw [hp] at ha2
    rw [ha] at ha2
    rw [hp]
    obtain ⟨zs, hz, hrun⟩ := ih _
      (ys.set (sa.off + i) (JiraMachine.copied (ys.getD (sa.off + i) (JiraMachine.zero K))))
      ha2 (by rw [List.getElem?_set_self hsb2]) (by
        intro j hj
        obtain ⟨j1, j4⟩ := hbd j (List.mem_cons_of_mem i hj)
        exact ⟨j1, by rw [List.length_set]; exact j4⟩)
    refine ⟨zs, by rw [hz, List.length_set], ?_⟩
    rw [hrun, List.set_set]

/-- `JiraMachineList.DeepCopyInto` with the receiver as its own destination,
`Items` non-nil: it completes, and the list's `Items` become a slice of the same
length over a new array. -/
theorem JiraMachineList.DeepCopyInto_self {K : Metav1} (h : Heap K) (a : Nat)
    (L : JiraMachineList K) (s : Slice)
    (hi : h.loadList (some a) = .ok L) (hs : L.Items = some s) :
    ∃ zs, zs.length = s.len ∧
      JiraMachineList.DeepCopyInto K (some a) (some a) h =
        .ok (List.set h a (.list (L.copied
                (some { arr := h.length, off := 0, len := s.len, cap := s.len }))) ++
              [.array zs]) := by
  have Lo : ∀ v, Heap.loadList (List.set h a (.list v)) (some a) = .ok v := by
    intro v; rw [Heap.loadList_set h a a L v hi]; simp
  have W : ∀ v w, Heap.storeList (List.set h a (.list v)) (some a) w =
      .ok (List.set h a (.list w)) := by
    intro v w
    rw [Heap.storeList_eq_set _ a v w (Lo v), List.set_set]
  have hb : a < h.length := by
    rw [Heap.loadList_some_iff] at hi
    exact (List.getElem?_eq_some_iff.mp hi).1
  have Lo2 : ∀ v (t : Heap K), Heap.loadList (List.set h a (.list v) ++ t) (some a) = .ok v :=
    fun v t => Heap.loadList_append _ t a v (Lo v)
  have W2 : ∀ v w (t : Heap K), Heap.storeList (List.set h a (.list v) ++ t) (some a) w =
      .ok (List.set h a (.list w) ++ t) := by
    intro v w t
    rw [Heap.storeList_eq_set _ a v w (Lo2 v t), List.set_append_left _ _ (by simpa using hb),
      List.set_set]
  simp only [JiraMachineList.DeepCopyInto, bind, Except.bind, hi,
    Heap.storeList_eq_set h a L _ hi, Lo, W, hs, Heap.makeSlice, Lo2, W2, sliceLen]
  simp only [ne_eq, reduceCtorEq, not_false_eq_true, if_true, List.length_set]
  obtain ⟨zs, hz, hrun⟩ := JiraMachineList.copyItems_self a
    (L.copied (some { arr := h.length, off := 0, len := s.len, cap := s.len }))
    { arr := h.length, off := 0, len := s.len, cap := s.len } rfl (List.range s.len)
    (List.set h a (.list (L.copied (some { arr := h.length, off := 0, len := s.len, cap := s.len })))
      ++ [.array (List.replicate s.len (JiraMachine.zero K))])
    (List.replicate s.len (JiraMachine.zero K)) (Lo2 _ _)
    (by rw [List.getElem?_append_right (by simp)]; simp)
    (by
      intro i hi2
      have : i < s.len := List.mem_range.mp hi2
      simp; omega)
  refine ⟨zs, by simpa using hz, ?_⟩
  simp only [JiraMachineList.copied] at hrun
  rw [hrun, List.set_append_right _ _ (by simp)]
  simp [JiraMachineList.copied]

theorem Heap.putMachine_append {K : Metav1} (h t : Heap K) (l : MachineLoc) (m v : JiraMachine K)
    (hr : h.readMachine l = .ok m) : (h ++ t).putMachine l v = h.putMachine l v ++ t := by
  cases l with
  | cell a =>
    simp only [Heap.readMachine] at hr
    split at hr
    · rename_i m1 hm
      have ha : a < h.length := (List.getElem?_eq_some_iff.mp hm).1
      simp [Heap.putMachine, List.set_append_left _ _ ha]
    · simp at hr
  | elem arr i =>
    rw [Heap.readMachine_elem_iff] at hr
    obtain ⟨xs, hx, hm⟩ := hr
    have ha : arr < h.length := (List.getElem?_eq_some_iff.mp hx).1
    have hx2 : (h ++ t)[arr]? = some (.array xs) := by
      rw [List.getElem?_append_left ha, hx]
    simp only [Heap.putMachine, hx, hx2]
    exact List.set_append_left _ _ ha

/-- Closed form of `JiraMachine.DeepCopy` on a valid non-nil receiver. -/
theorem JiraMachine_DeepCopy_eq {K : Metav1} (h : Heap K) (l : MachineLoc) (x : JiraMachine K)
    (hi : h.readMachine l = .ok x) :
    JiraMachine.DeepCopy K (some l) h =
      .ok (some (.cell h.length), h ++ [.machine x.copied]) := by
  have r1 := Heap.readMachine_append h [.machine (JiraMachine.zero K)] l x hi
  have r2 : Heap.readMachine (h ++ [.machine (JiraMachine.zero K)]) (.cell h.length) =
      .ok (JiraMachine.zero K) := by
    simp [Heap.readMachine]
  simp only [JiraMachine.DeepCopy, Heap.newMachine, bind, Except.bind, pure, Except.pure,
    reduceCtorEq, if_false, JiraMachine_DeepCopyInto_eq _ _ _ _ _ r1 r2]
  simp [Heap.putMachine]

/-- Closed form of `JiraMachineList.DeepCopy` on a receiver with nil `Items`. -/
theorem JiraMachineList.DeepCopy_nil_eq {K : Metav1} (h : Heap K) (a : Nat)
    (L : JiraMachineList K) (hi : h.loadList (some a) = .ok L) (hnil : L.Items = none) :
    JiraMachineList.DeepCopy K (some a) h =
      .ok (some h.length, h ++ [.list (L.copied none)]) := by
  have r1 := Heap.loadList_append h [.list (JiraMachineList.zero K)] a L hi
  have r2 : Heap.loadList (h ++ [.list (JiraMachineList.zero K)]) (some h.length) =
      .ok (JiraMachineList.zero K) := by
    simp [Heap.loadList]
  simp only [JiraMachineList.DeepCopy, Heap.newList, bind, Except.bind, pure, Except.pure,
    reduceCtorEq, if_false, JiraMachineList.DeepCopyInto_nil_eq _ _ _ _ _ r1 r2 hnil]
  simp

/-- Closed form of `JiraMachineList.DeepCopy` on a receiver with non-nil
`Items`: a new list at the first free address and, right after it, a new array
with `JiraMachine.copied` of every element in order; the old heap is a prefix of
the new one. -/
theorem JiraMachineList.DeepCopy_some_eq {K : Metav1} (h : Heap K) (a : Nat)
    (L : JiraMachineList K) (s : Slice) (xs : List (JiraMachine K))
    (hi : h.loadList (some a) = .ok L) (hs : L.Items = some s)
    (hx : h[s.arr]? = some (.array xs)) (hbd : s.off + s.len ≤ xs.length) :
    JiraMachineList.DeepCopy K (some a) h =
      .ok (some h.length,
        h ++ [.list (L.copied (some { arr := h.length + 1, off := 0, len := s.len, cap := s.len })),
              .array ((s.elems xs).map JiraMachine.copied)]) := by
  have r1 := Heap.loadList_append h [.list (JiraMachineList.zero K)] a L hi
  have r2 : Heap.loadList (h ++ [.list (JiraMachineList.zero K)]) (some h.length) =
      .ok (JiraMachineList.zero K) := by
    simp [Heap.loadList]
  have ha : a < h.length := by
    rw [Heap.loadList_some_iff] at hi
    exact (List.getElem?_eq_some_iff.mp hi).1
  have hsa : s.arr < h.length := (List.getElem?_eq_some_iff.mp hx).1
  have hx2 : (h ++ [Obj.list (JiraMachineList.zero K)])[s.arr]? = some (.array xs) := by
    rw [List.getElem?_append_left hsa, hx]
  simp only [JiraMachineList.DeepCopy, Heap.newList, bind, Except.bind, pure, Except.pure,
    reduceCtorEq, if_false,
    JiraMachineList.DeepCopyInto_some_eq _ _ _ _ _ s xs r1 r2 (Nat.ne_of_lt ha) hs hx2 hbd]
  simp

theorem Heap.readMachine_set_spec {K : Metav1} (h : Heap K) (a : Nat) (s v : JiraMachineSpec)
    (ha : h[a]? = some (.spec s)) (l : MachineLoc) :
    Heap.readMachine (List.set h a (.spec v)) l = h.readMachine l := by
  cases l with
  | cell c =>
    by_cases e : a = c
    · subst e
      have hc : a < h.length := (List.getElem?_eq_some_iff.mp ha).1
      simp [Heap.readMachine, ha, hc]
    · simp [Heap.readMachine, List.getElem?_set_ne e]
  | elem arr i =>
    by_cases e : a = arr
    · subst e
      have hc : a < h.length := (List.getElem?_eq_some_iff.mp ha).1
      simp [Heap.readMachine, ha, hc]
    · simp [Heap.readMachine, List.getElem?_set_ne e]

theorem Heap.getElem?_putMachine_spec {K : Metav1} (h : Heap K) (l : MachineLoc)
    (m v : JiraMachine K) (hr : h.readMachine l = .ok m) (a : Nat) (s : JiraMachineSpec) :
    (h.putMachine l v)[a]? = some (.spec s) ↔ h[a]? = some (.spec s) := by
  cases l with
  | cell c =>
    simp only [Heap.readMachine] at hr
    split at hr
    · rename_i m1 hm
      have hc : c < h.length := (List.getElem?_eq_some_iff.mp hm).1
      by_cases e : c = a
      · subst e; simp [Heap.putMachine, hc, hm]
      · simp [Heap.putMachine, List.getElem?_set_ne e]
    · simp at hr
  | elem arr i =>
    rw [Heap.readMachine_elem_iff] at hr
    obtain ⟨xs, hx, hm⟩ := hr
    have hc : arr < h.length := (List.getElem?_eq_some_iff.mp hx).1
    by_cases e : arr = a
    · subst e; simp [Heap.putMachine, hc, hx]
    · simp [Heap.putMachine, hx, List.getElem?_set_ne e]

theorem Heap.loadSpec_cell_iff {K : Metav1} (h : Heap K) (a : Nat) (s : JiraMachineSpec) :
    h.loadSpec (some (.cell a)) = .ok s ↔ h[a]? = some (.spec s) := by
  simp only [Heap.loadSpec]
  constructor
  · intro hl
    split at hl
    · rename_i l2 h2
      injection hl with e
      rw [h2, e]
    · simp at hl
  · intro hl
    rw [hl]

theorem Heap.loadSpec_field_iff {K : Metav1} (h : Heap K) (m : MachineLoc) (s : JiraMachineSpec) :
    h.loadSpec (some (.field m)) = .ok s ↔ ∃ w, h.readMachine m = .ok w ∧ w.Spec = s := by
  simp only [Heap.loadSpec, bind, Except.bind, pure, Except.pure]
  constructor
  · intro hl
    split at hl
    · simp at hl
    · rename_i w hw
      injection hl with e
      exact ⟨w, hw, e⟩
  · rintro ⟨w, hw, e⟩
    rw [hw, ← e]

theorem Heap.storeSpec_eq_put {K : Metav1} (h : Heap K) (l : FieldLoc) (s v : JiraMachineSpec)
    (hr : h.loadSpec (some l) = .ok s) : h.storeSpec (some l) v = .ok (h.putSpec l v) := by
  cases l with
  | cell a =>
    rw [Heap.loadSpec_cell_iff] at hr
    simp [Heap.storeSpec, Heap.putSpec, hr]
  | field m =>
    rw [Heap.loadSpec_field_iff] at hr
    obtain ⟨w, hw, _⟩ := hr
    simp [Heap.storeSpec, Heap.putSpec, hw, bind, Except.bind,
      Heap.writeMachine_eq_put h m w _ hw]

theorem Heap.length_putSpec {K : Metav1} (h : Heap K) (l : FieldLoc) (v : JiraMachineSpec) :
    (h.putSpec l v).length = h.length := by
  cases l with
  | cell a => simp [Heap.putSpec]
  | field m =>
    simp only [Heap.putSpec]
    split
    · exact Heap.length_putMachine _ _ _
    · rfl

theorem Heap.loadSpec_put {K : Metav1} (h : Heap K) (l l2 : FieldLoc) (s v : JiraMachineSpec)
    (hr : h.loadSpec (some l) = .ok s) :
    (h.putSpec l v).loadSpec (some l2) = if l2 = l then .ok v else h.loadSpec (some l2) := by
  cases l with
  | cell a =>
    rw [Heap.loadSpec_cell_iff] at hr
    have ha : a < h.length := (List.getElem?_eq_some_iff.mp hr).1
    cases l2 with
    | cell b =>
      by_cases e : b = a
      · subst e; simp [Heap.loadSpec, Heap.putSpec, ha]
      · have e2 : a ≠ b := fun c => e c.symm
        simp [Heap.loadSpec, Heap.putSpec, e, List.getElem?_set_ne e2]
    | field m =>
      simp only [Heap.loadSpec, Heap.putSpec, Heap.readMachine_set_spec h a s v hr m]
      simp
  | field m =>
    rw [Heap.loadSpec_field_iff] at hr
    obtain ⟨w, hw, _⟩ := hr
    cases l2 with
    | cell b =>
      simp only [Heap.putSpec, hw, reduceCtorEq, if_false]
      cases hb : h.loadSpec (some (.cell b)) with
      | ok t =>
        rw [Heap.loadSpec_cell_iff] at hb ⊢
        exact (Heap.getElem?_putMachine_spec h m w _ hw b t).mpr hb
      | error f =>
        cases hc : Heap.loadSpec (h.putMachine m { w with Spec := v }) (some (.cell b)) with
        | ok t =>
          rw [Heap.loadSpec_cell_iff] at hc
          have := (Heap.loadSpec_cell_iff h b t).mpr
            ((Heap.getElem?_putMachine_spec h m w _ hw b t).mp hc)
          rw [hb] at this
          simp at this
        | error f2 =>
          have e1 : f = Fault.invalidAddress := by
            simp only [Heap.loadSpec] at hb
            split at hb
            · simp at hb
            · injection hb with e; exact e.symm
          have e2 : f2 = Fault.invalidAddress := by
            simp only [Heap.loadSpec] at hc
            split at hc
            · simp at hc
            · injection hc with e; exact e.symm
          rw [e1, e2]
    | field m2 =>
      simp only [Heap.putSpec, hw, Heap.loadSpec, Heap.readMachine_put h m m2 w _ hw]
      by_cases e : m2 = m
      · simp [e, bind, Except.bind, pure, Except.pure]
      · simp [e]

theorem Heap.putSpec_put {K : Metav1} (h : Heap K) (l : FieldLoc) (s v w : JiraMachineSpec)
    (hr : h.loadSpec (some l) = .ok s) :
    (h.putSpec l v).putSpec l w = h.putSpec l w := by
  cases l with
  | cell a => simp [Heap.putSpec, List.set_set]
  | field m =>
    rw [Heap.loadSpec_field_iff] at hr
    obtain ⟨x, hx, _⟩ := hr
    simp only [Heap.putSpec, hx, Heap.readMachine_put_self h m x _ hx, Heap.putMachine_put]

theorem Heap.loadSpec_append {K : Metav1} (h t : Heap K) (l : FieldLoc) (s : JiraMachineSpec)
    (hr : h.loadSpec (some l) = .ok s) : (h ++ t).loadSpec (some l) = .ok s := by
  cases l with
  | cell a =>
    rw [Heap.loadSpec_cell_iff] at hr ⊢
    have ha : a < h.length := (List.getElem?_eq_some_iff.mp hr).1
    rw [List.getElem?_append_left ha, hr]
  | field m =>
    rw [Heap.loadSpec_field_iff] at hr ⊢
    obtain ⟨w, hw, e⟩ := hr
    exact ⟨w, Heap.readMachine_append h t m w hw, e⟩

/-- Closed form of `JiraMachineSpec.DeepCopyInto` on two valid pointers. -/
theorem JiraMachineSpec_DeepCopyInto_eq {K : Metav1} (h : Heap K) (li lo : FieldLoc)
    (s t : JiraMachineSpec) (hi : h.loadSpec (some li) = .ok s)
    (ho : h.loadSpec (some lo) = .ok t) :
    JiraMachineSpec.DeepCopyInto K (some li) (some lo) h = .ok (h.putSpec lo s) := by
  simp only [JiraMachineSpec.DeepCopyInto, bind, Except.bind, hi,
    Heap.storeSpec_eq_put h lo t s ho]

/-- Closed form of `JiraMachineSpec.DeepCopy` on a valid non-nil receiver. -/
theorem JiraMachineSpec_DeepCopy_eq {K : Metav1} (h : Heap K) (l : FieldLoc)
    (s : JiraMachineSpec) (hi : h.loadSpec (some l) = .ok s) :
    JiraMachineSpec.DeepCopy K (some l) h = .ok (some (.cell h.length), h ++ [.spec s]) := by
  have r1 := Heap.loadSpec_append h [.spec JiraMachineSpec.zero] l s hi
  have r2 : Heap.loadSpec (h ++ [.spec JiraMachineSpec.zero]) (some (.cell h.length)) =
      .ok JiraMachineSpec.zero := by
    simp [Heap.loadSpec]
  simp only [JiraMachineSpec.DeepCopy, Heap.newSpec, bind, Except.bind, pure, Except.pure,
    reduceCtorEq, if_false, JiraMachineSpec_DeepCopyInto_eq _ _ _ _ _ r1 r2]
  simp [Heap.putSpec]

theorem Heap.readMachine_set_status {K : Metav1} (h : Heap K) (a : Nat) (s v : JiraMachineStatus)
    (ha : h[a]? = some (.status s)) (l : MachineLoc) :
    Heap.readMachine (List.set h a (.status v)) l = h.readMachine l := by
  cases l with
  | cell c =>
    by_cases e : a = c
    · subst e
      have hc : a < h.length := (List.getElem?_eq_some_iff.mp ha).1
      simp [Heap.readMachine, ha, hc]
    · simp [Heap.readMachine, List.getElem?_set_ne e]
  | elem arr i =>
    by_cases e : a = arr
    · subst e
      have hc : a < h.length := (List.getElem?_eq_some_iff.mp ha).1
      simp [Heap.readMachine, ha, hc]
    · simp [Heap.readMachine, List.getElem?_set_ne e]

theorem Heap.getElem?_putMachine_status {K : Metav1} (h : Heap K) (l : MachineLoc)
    (m v : JiraMachine K) (hr : h.readMachine l = .ok m) (a : Nat) (s : JiraMachineStatus) :
    (h.putMachine l v)[a]? = some (.status s) ↔ h[a]? = some (.status s) := by
  cases l with
  | cell c =>
    simp only [Heap.readMachine] at hr
    split at hr
    · rename_i m1 hm
      have hc : c < h.length := (List.getElem?_eq_some_iff.mp hm).1
      by_cases e : c = a
      · subst e; simp [Heap.putMachine, hc, hm]
      · simp [Heap.putMachine, List.getElem?_set_ne e]
    · simp at hr
  | elem arr i =>
    rw [Heap.readMachine_elem_iff] at hr
    obtain ⟨xs, hx, hm⟩ := hr
    have hc : arr < h.length := (List.getElem?_eq_some_iff.mp hx).1
    by_cases e : arr = a
    · subst e; simp [Heap.putMachine, hc, hx]
    · simp [Heap.putMachine, hx, List.getElem?_set_ne e]

theorem Heap.loadStatus_cell_iff {K : Metav1} (h : Heap K) (a : Nat) (s : JiraMachineStatus) :
    h.loadStatus (some (.cell a)) = .ok s ↔ h[a]? = some (.status s) := by
  simp only [Heap.loadStatus]
  constructor
  · intro hl
    split at hl
    · rename_i l2 h2
      exact h2
    · simp at hl
  · intro hl
    rw [hl]

theorem Heap.loadStatus_field_iff {K : Metav1} (h : Heap K) (m : MachineLoc) (s : JiraMachineStatus) :
    h.loadStatus (some (.field m)) = .ok s ↔ ∃ w, h.readMachine m = .ok w ∧ w.Status = s := by
  simp only [Heap.loadStatus, bind, Except.bind, pure, Except.pure]
  constructor
  · intro hl
    split at hl
    · simp at hl
    · rename_i w hw
      exact ⟨w, hw, trivial⟩
  · rintro ⟨w, hw, _⟩
    rw [hw]

theorem Heap.storeStatus_eq_put {K : Metav1} (h : Heap K) (l : StatusLoc) (s v : JiraMachineStatus)
    (hr : h.loadStatus (some l) = .ok s) : h.storeStatus (some l) v = .ok (h.putStatus l v) := by
  cases l with
  | zerobase => rfl
  | cell a =>
    rw [Heap.loadStatus_cell_iff] at hr
    simp [Heap.storeStatus, Heap.putStatus, hr]
  | field m =>
    rw [Heap.loadStatus_field_iff] at hr
    obtain ⟨w, hw, _⟩ := hr
    simp [Heap.storeStatus, Heap.putStatus, hw, bind, Except.bind,
      Heap.writeMachine_eq_put h m w _ hw]

theorem Heap.length_putStatus {K : Metav1} (h : Heap K) (l : StatusLoc) (v : JiraMachineStatus) :
    (h.putStatus l v).length = h.length := by
  cases l with
  | zerobase => rfl
  | cell a => simp [Heap.putStatus]
  | field m =>
    simp only [Heap.putStatus]
    split
    · exact Heap.length_putMachine _ _ _
    · rfl

/-- A store through a valid `*JiraMachineStatus` leaves every status variable
readable: the type has one value only. -/
theorem Heap.loadStatus_put {K : Metav1} (h : Heap K) (l l2 : StatusLoc) (s t v : JiraMachineStatus)
    (hr : h.loadStatus (some l) = .ok s) (hr2 : h.loadStatus (some l2) = .ok t) :
    (h.putStatus l v).loadStatus (some l2) = .ok t := by
  cases l with
  | zerobase => exact hr2
  | cell a =>
    rw [Heap.loadStatus_cell_iff] at hr
    have ha : a < h.length := (List.getElem?_eq_some_iff.mp hr).1
    cases l2 with
    | zerobase => rfl
    | cell b =>
      rw [Heap.loadStatus_cell_iff] at hr2 ⊢
      by_cases e : a = b
      · subst e; simp [Heap.putStatus, ha]
      · simp only [Heap.putStatus]
        rw [List.getElem?_set_ne e]; exact hr2
    | field m =>
      rw [Heap.loadStatus_field_iff] at hr2 ⊢
      obtain ⟨w, hw, _⟩ := hr2
      refine ⟨w, ?_, rfl⟩
      simp only [Heap.putStatus]
      rw [Heap.readMachine_set_status h a s v hr m]; exact hw
  | field m =>
    rw [Heap.loadStatus_field_iff] at hr
    obtain ⟨w, hw, _⟩ := hr
    cases l2 with
    | zerobase => rfl
    | cell b =>
      rw [Heap.loadStatus_cell_iff] at hr2 ⊢
      simp only [Heap.putStatus, hw]
      exact (Heap.getElem?_putMachine_status h m w _ hw b t).mpr hr2
    | field m2 =>
      rw [Heap.loadStatus_field_iff] at hr2 ⊢
      obtain ⟨w2, hw2, _⟩ := hr2
      simp only [Heap.putStatus, hw, Heap.readMachine_put h m m2 w _ hw]
      by_cases e : m2 = m
      · exact ⟨{ w with Status := v }, by simp [e], trivial⟩
      · exact ⟨w2, by simp [e, hw2], trivial⟩

theorem Heap.loadStatus_append {K : Metav1} (h t : Heap K) (l : StatusLoc) (s : JiraMachineStatus)
    (hr : h.loadStatus (some l) = .ok s) : (h ++ t).loadStatus (some l) = .ok s := by
  cases l with
  | zerobase => rfl
  | cell a =>
    rw [Heap.loadStatus_cell_iff] at hr ⊢
    have ha : a < h.length := (List.getElem?_eq_some_iff.mp hr).1
    rw [List.getElem?_append_left ha, hr]
  | field m =>
    rw [Heap.loadStatus_field_iff] at hr ⊢
    obtain ⟨w, hw, e⟩ := hr
    exact ⟨w, Heap.readMachine_append h t m w hw, e⟩

/-- Closed form of `JiraMachineStatus.DeepCopyInto` on two valid pointers. -/
theorem JiraMachineStatus_DeepCopyInto_eq {K : Metav1} (h : Heap K) (li lo : StatusLoc)
    (s t : JiraMachineStatus) (hi : h.loadStatus (some li) = .ok s)
    (ho : h.loadStatus (some lo) = .ok t) :
    JiraMachineStatus.DeepCopyInto K (some li) (some lo) h = .ok (h.putStatus lo s) := by
  simp only [JiraMachineStatus.DeepCopyInto, bind, Except.bind, hi,
    Heap.storeStatus_eq_put h lo t s ho]

/-- Closed form of `JiraMachineStatus.DeepCopy` on a valid non-nil receiver:
the result is the shared zero-size address and the heap is the one before the
call. -/
theorem JiraMachineStatus_DeepCopy_eq {K : Metav1} (h : Heap K) (l : StatusLoc)
    (s : JiraMachineStatus) (hi : h.loadStatus (some l) = .ok s) :
    JiraMachineStatus.DeepCopy K (some l) h = .ok (some .zerobase, h) := by
  simp only [JiraMachineStatus.DeepCopy, Heap.newStatus, bind, Except.bind, pure, Except.pure,
    reduceCtorEq, if_false, JiraMachineStatus.DeepCopyInto, hi]
  rfl

/-! ## The claims -/

/-- Claim C1. When the external `ObjectMeta.DeepCopyInto` leaves in its
destination a value equal to its receiver, `JiraMachine.DeepCopy` of a non-nil
receiver holding `m` returns a non-nil pointer to a `JiraMachine` equal to `m`
in `TypeMeta`, `ObjectMeta`, `Spec.Foo` and `Status` (so equal to `m`); and
`DeepCopy` of a non-nil `JiraMachineSpec` (`JiraMachineStatus`) holding `s`
(`t`) returns a non-nil pointer to a value equal to `s` (`t`). -/
theorem claim_C1_DeepCopy_equals_receiver (K : Metav1)
    (hext : ∀ a b, K.ObjectMeta_DeepCopyInto a b = a) (h : Heap K) :
    (∀ (l : MachineLoc) (m : JiraMachine K), h.readMachine l = .ok m →
      ∃ (q : MachineLoc) (h2 : Heap K) (m2 : JiraMachine K),
        JiraMachine.DeepCopy K (some l) h = .ok (some q, h2) ∧
        h2.loadMachine (some q) = .ok m2 ∧
        m2.TypeMeta = m.TypeMeta ∧ m2.ObjectMeta = m.ObjectMeta ∧
        m2.Spec.Foo = m.Spec.Foo ∧ m2.Status = m.Status ∧ m2 = m) ∧
    (∀ (l : FieldLoc) (s : JiraMachineSpec), h.loadSpec (some l) = .ok s →
      ∃ (q : FieldLoc) (h2 : Heap K),
        JiraMachineSpec.DeepCopy K (some l) h = .ok (some q, h2) ∧
        h2.loadSpec (some q) = .ok s) ∧
    (∀ (l : StatusLoc) (t : JiraMachineStatus), h.loadStatus (some l) = .ok t →
      ∃ (q : StatusLoc) (h2 : Heap K),
        JiraMachineStatus.DeepCopy K (some l) h = .ok (some q, h2) ∧
        h2.loadStatus (some q) = .ok t) := by
  refine ⟨?_, ?_, ?_⟩
  · intro l m hm
    have hc : m.copied = m := by
      cases m
      simp [JiraMachine.copied, hext]
    refine ⟨.cell h.length, _, m, JiraMachine_DeepCopy_eq h l m hm, ?_, rfl, rfl, rfl, rfl, rfl⟩
    simp [Heap.loadMachine, Heap.readMachine, hc]
  · intro l s hs
    refine ⟨.cell h.length, _, JiraMachineSpec_DeepCopy_eq h l s hs, ?_⟩
    simp [Heap.loadSpec]
  · intro l t ht
    exact ⟨.zerobase, _, JiraMachineStatus_DeepCopy_eq h l t ht, rfl⟩

/-- Claim C1 on `sampleHeap`: the second element of the array, the `Spec` field
of the machine in cell 2, and the status in cell 4. -/
theorem claim_C1_witness :
    (∃ (q : MachineLoc) (h2 : Heap Metav1.plain) (m2 : JiraMachine Metav1.plain),
        JiraMachine.DeepCopy Metav1.plain (some (.elem 1 1)) sampleHeap = .ok (some q, h2) ∧
        h2.loadMachine (some q) = .ok m2 ∧
        m2.TypeMeta = (sampleMachine "m1" "b").TypeMeta ∧
        m2.ObjectMeta = (sampleMachine "m1" "b").ObjectMeta ∧
        m2.Spec.Foo = (sampleMachine "m1" "b").Spec.Foo ∧
        m2.Status = (sampleMachine "m1" "b").Status ∧ m2 = sampleMachine "m1" "b") ∧
    (∃ (q : FieldLoc) (h2 : Heap Metav1.plain),
        JiraMachineSpec.DeepCopy Metav1.plain (some (.field (.cell 2))) sampleHeap =
          .ok (some q, h2) ∧
        h2.loadSpec (some q) = .ok { Foo := "c" }) ∧
    (∃ (q : StatusLoc) (h2 : Heap Metav1.plain),
        JiraMachineStatus.DeepCopy Metav1.plain (some (.cell 4)) sampleHeap = .ok (some q, h2) ∧
        h2.loadStatus (some q) = .ok {}) :=
  ⟨(claim_C1_DeepCopy_equals_receiver Metav1.plain (fun _ _ => rfl) sampleHeap).1
      (.elem 1 1) (sampleMachine "m1" "b") rfl,
   (claim_C1_DeepCopy_equals_receiver Metav1.plain (fun _ _ => rfl) sampleHeap).2.1
      (.field (.cell 2)) { Foo := "c" } rfl,
   (claim_C1_DeepCopy_equals_receiver Metav1.plain (fun _ _ => rfl) sampleHeap).2.2
      (.cell 4) {} rfl⟩

theorem Heap.getElem?_alloc_fst {α : Type} (h : List α) (o1 o2 : α) :
    (h ++ [o1, o2])[h.length]? = some o1 := by
  rw [List.getElem?_append_right (Nat.le_refl _)]
  simp

theorem Heap.getElem?_alloc_snd {α : Type} (h : List α) (o1 o2 : α) :
    (h ++ [o1, o2])[h.length + 1]? = some o2 := by
  rw [List.getElem?_append_right (Nat.le_succ _)]
  simp

theorem Heap.getElem?_alloc_old {α : Type} (h t : List α) (a : Nat) (ha : a < h.length) :
    (h ++ t)[a]? = h[a]? :=
  List.getElem?_append_left ha

/-- Claim C2. `JiraMachineList.DeepCopy` of a non-nil list with non-nil `Items`
returns a list whose `Items` have the same length and whose element `i`, for
every `i` below that length, is the value `JiraMachine.DeepCopyInto` leaves in
a destination when its receiver holds element `i` of the source; when the
external `ObjectMeta.DeepCopyInto` and `ListMeta.DeepCopyInto` leave values
equal to their receivers, the copy equals the source in `TypeMeta`, `ListMeta`
and every element. -/
theorem claim_C2_list_DeepCopy_elementwise (K : Metav1) (h : Heap K) (a : Nat)
    (L : JiraMachineList K) (s : Slice) (xs : List (JiraMachine K))
    (hi : h.loadList (some a) = .ok L) (hs : L.Items = some s)
    (hx : h[s.arr]? = some (.array xs)) (hbd : s.off + s.len ≤ xs.length) :
    ∃ (q : Nat) (h2 : Heap K) (L2 : JiraMachineList K) (s2 : Slice),
      JiraMachineList.DeepCopy K (some a) h = .ok (some q, h2) ∧
      h2.loadList (some q) = .ok L2 ∧ L2.Items = some s2 ∧ s2.len = s.len ∧
      L2.TypeMeta = L.TypeMeta ∧
      (∀ i, i < s.len → ∃ (x y : JiraMachine K),
        h.readMachine (.elem s.arr (s.off + i)) = .ok x ∧
        h2.readMachine (.elem s2.arr (s2.off + i)) = .ok y ∧
        (∀ (g : Heap K) (li lo : MachineLoc) (z : JiraMachine K),
          g.readMachine li = .ok x → g.readMachine lo = .ok z →
          ∃ g2, JiraMachine.DeepCopyInto K (some li) (some lo) g = .ok g2 ∧
            g2.readMachine lo = .ok y) ∧
        ((∀ c d, K.ObjectMeta_DeepCopyInto c d = c) → y = x)) ∧
      ((∀ c d, K.ListMeta_DeepCopyInto c d = c) → L2.ListMeta = L.ListMeta) := by
  refine ⟨h.length, _,
    L.copied (some { arr := h.length + 1, off := 0, len := s.len, cap := s.len }),
    { arr := h.length + 1, off := 0, len := s.len, cap := s.len },
    JiraMachineList.DeepCopy_some_eq h a L s xs hi hs hx hbd, ?_, rfl, rfl, rfl, ?_, ?_⟩
  · rw [Heap.loadList_some_iff, Heap.getElem?_alloc_fst]
  · intro i hlt
    have hj : s.off + i < xs.length := by omega
    refine ⟨xs[s.off + i], (xs[s.off + i]).copied, ?_, ?_, ?_, ?_⟩
    · rw [Heap.readMachine_elem_iff]
      exact ⟨xs, hx, List.getElem?_eq_getElem hj⟩
    · rw [Heap.readMachine_elem_iff]
      refine ⟨(s.elems xs).map JiraMachine.copied, ?_, ?_⟩
      · exact Heap.getElem?_alloc_snd h _ _
      · simp only [Nat.zero_add, List.getElem?_map, Slice.getElem?_elems s xs i hlt,
          List.getElem?_eq_getElem hj]
        rfl
    · intro g li lo z hli hlo
      exact ⟨_, JiraMachine_DeepCopyInto_eq g li lo _ z hli hlo,
        Heap.readMachine_put_self g lo z _ hlo⟩
    · intro hext
      cases hxi : xs[s.off + i]
      simp [JiraMachine.copied, hext]
  · intro hext
    simp [JiraMachineList.copied, hext]

/-- Claim C2 on `sampleHeap`: the list in cell 0, whose `Items` are the two
machines of the array at address 1. -/
theorem claim_C2_witness :
    ∃ (q : Nat) (h2 : Heap Metav1.plain) (L2 : JiraMachineList Metav1.plain) (s2 : Slice),
      JiraMachineList.DeepCopy Metav1.plain (some 0) sampleHeap = .ok (some q, h2) ∧
      h2.loadList (some q) = .ok L2 ∧ L2.Items = some s2 ∧ s2.len = 2 ∧
      L2.TypeMeta = ("JiraMachineList", "v1alpha1") ∧
      (∀ i, i < 2 → ∃ (x y : JiraMachine Metav1.plain),
        sampleHeap.readMachine (.elem 1 (0 + i)) = .ok x ∧
        h2.readMachine (.elem s2.arr (s2.off + i)) = .ok y ∧
        (∀ (g : Heap Metav1.plain) (li lo : MachineLoc) (z : JiraMachine Metav1.plain),
          g.readMachine li = .ok x → g.readMachine lo = .ok z →
          ∃ g2, JiraMachine.DeepCopyInto Metav1.plain (some li) (some lo) g = .ok g2 ∧
            g2.readMachine lo = .ok y) ∧
        ((∀ c d, Metav1.plain.ObjectMeta_DeepCopyInto c d = c) → y = x)) ∧
      ((∀ c d, Metav1.plain.ListMeta_DeepCopyInto c d = c) → L2.ListMeta = "42") :=
  claim_C2_list_DeepCopy_elementwise Metav1.plain sampleHeap 0
    (sampleList (some { arr := 1, off := 0, len := 2, cap := 2 }))
    { arr := 1, off := 0, len := 2, cap := 2 }
    [sampleMachine "m0" "a", sampleMachine "m1" "b"] rfl rfl rfl (by decide)

theorem Heap.writeMachine_elem_frame {K : Metav1} (g g3 : Heap K) (arr i : Nat)
    (v : JiraMachine K) (hw : g.writeMachine (.elem arr i) v = .ok g3) (addr : Nat)
    (hne : addr ≠ arr) : g3[addr]? = g[addr]? := by
  simp only [Heap.writeMachine] at hw
  split at hw
  · split at hw
    · injection hw with e
      rw [← e, List.getElem?_set_ne (fun c => hne c.symm)]
    · simp at hw
  · simp at hw

theorem Heap.readMachine_elem_congr {K : Metav1} (g h : Heap K) (arr j : Nat)
    (e : g[arr]? = h[arr]?) : g.readMachine (.elem arr j) = h.readMachine (.elem arr j) := by
  simp [Heap.readMachine, e]

theorem Heap.loadList_congr {K : Metav1} (g h : Heap K) (a : Nat)
    (e : g[a]? = h[a]?) : g.loadList (some a) = h.loadList (some a) := by
  simp [Heap.loadList, e]

theorem Heap.storeSpec_field_eq {K : Metav1} (g : Heap K) (m : MachineLoc) (w : JiraMachine K)
    (f : JiraMachineSpec) (hr : g.readMachine m = .ok w) :
    g.storeSpec (some (.field m)) f = g.writeMachine m { w with Spec := f } := by
  simp [Heap.storeSpec, hr, bind, Except.bind]

/-- Claim C3. The `Items` of `JiraMachineList.DeepCopy(l)`, for `l` non-nil with
non-nil (in particular non-empty) `Items`, are a slice over a newly allocated
array: its address is no address of the heap before the call. A store to any
element of the copy's `Items`, or to the `Spec` field of one, leaves `l`, the
backing array of `l.Items` and every other object of the old heap unchanged; and
a store to an element of `l.Items`, or to `l` itself, leaves the copy and every
element of its `Items` unchanged. -/
theorem claim_C3_list_DeepCopy_no_alias (K : Metav1) (h : Heap K) (a : Nat)
    (L : JiraMachineList K) (s : Slice) (xs : List (JiraMachine K))
    (hi : h.loadList (some a) = .ok L) (hs : L.Items = some s)
    (hx : h[s.arr]? = some (.array xs)) (hbd : s.off + s.len ≤ xs.length) :
    ∃ (q : Nat) (h2 : Heap K) (L2 : JiraMachineList K) (s2 : Slice),
      JiraMachineList.DeepCopy K (some a) h = .ok (some q, h2) ∧
      h2.loadList (some q) = .ok L2 ∧ L2.Items = some s2 ∧
      h.length ≤ q ∧ h.length ≤ s2.arr ∧ s2.arr ≠ s.arr ∧
      (∀ addr, addr < h.length → h2[addr]? = h[addr]?) ∧
      (∀ i, i < s2.len → ∀ v : JiraMachine K, ∃ h3,
        h2.storeMachine (some (.elem s2.arr (s2.off + i))) v = .ok h3 ∧
        h3.loadList (some a) = .ok L ∧
        (∀ j, h3.readMachine (.elem s.arr j) = h.readMachine (.elem s.arr j)) ∧
        (∀ addr, addr < h.length → h3[addr]? = h[addr]?)) ∧
      (∀ i, i < s2.len → ∀ f : JiraMachineSpec, ∃ h3,
        h2.storeSpec (some (.field (.elem s2.arr (s2.off + i)))) f = .ok h3 ∧
        h3.loadList (some a) = .ok L ∧
        (∀ j, h3.readMachine (.elem s.arr j) = h.readMachine (.elem s.arr j)) ∧
        (∀ addr, addr < h.length → h3[addr]? = h[addr]?)) ∧
      (∀ j, j < s.len → ∀ v : JiraMachine K, ∃ h3,
        h2.storeMachine (some (.elem s.arr (s.off + j))) v = .ok h3 ∧
        h3.loadList (some q) = .ok L2 ∧
        (∀ i, h3.readMachine (.elem s2.arr i) = h2.readMachine (.elem s2.arr i))) ∧
      (∀ v : JiraMachineList K, ∃ h3,
        h2.storeList (some a) v = .ok h3 ∧
        h3.loadList (some q) = .ok L2 ∧
        (∀ i, h3.readMachine (.elem s2.arr i) = h2.readMachine (.elem s2.arr i))) := by
  have ha : a < h.length := by
    rw [Heap.loadList_some_iff] at hi
    exact (List.getElem?_eq_some_iff.mp hi).1
  have hsa : s.arr < h.length := (List.getElem?_eq_some_iff.mp hx).1
  have hold : ∀ addr, addr < h.length →
      (h ++ [Obj.list (L.copied (some { arr := h.length + 1, off := 0, len := s.len, cap := s.len })),
        Obj.array ((s.elems xs).map JiraMachine.copied)])[addr]? = h[addr]? :=
    fun addr hlt => Heap.getElem?_alloc_old h _ addr hlt
  have hq : Heap.loadList (h ++ [Obj.list (L.copied
      (some { arr := h.length + 1, off := 0, len := s.len, cap := s.len })),
        Obj.array ((s.elems xs).map JiraMachine.copied)]) (some h.length) =
      .ok (L.copied (some { arr := h.length + 1, off := 0, len := s.len, cap := s.len })) := by
    rw [Heap.loadList_some_iff, Heap.getElem?_alloc_fst]
  have hcopy : ∀ i, i < s.len → ∃ y, Heap.readMachine (h ++ [Obj.list (L.copied
      (some { arr := h.length + 1, off := 0, len := s.len, cap := s.len })),
        Obj.array ((s.elems xs).map JiraMachine.copied)]) (.elem (h.length + 1) (0 + i)) =
      .ok y := by
    intro i hlt
    have hj : s.off + i < xs.length := by omega
    refine ⟨(xs[s.off + i]).copied, ?_⟩
    rw [Heap.readMachine_elem_iff]
    refine ⟨_, Heap.getElem?_alloc_snd h _ _, ?_⟩
    simp only [Nat.zero_add, List.getElem?_map, Slice.getElem?_elems s xs i hlt,
      List.getElem?_eq_getElem hj]
    rfl
  have hsrc : ∀ j, j < s.len → ∃ x, Heap.readMachine (h ++ [Obj.list (L.copied
      (some { arr := h.length + 1, off := 0, len := s.len, cap := s.len })),
        Obj.array ((s.elems xs).map JiraMachine.copied)]) (.elem s.arr (s.off + j)) =
      .ok x := by
    intro j hlt
    have hj : s.off + j < xs.length := by omega
    refine ⟨xs[s.off + j], ?_⟩
    rw [Heap.readMachine_elem_iff]
    exact ⟨xs, by rw [hold _ hsa, hx], List.getElem?_eq_getElem hj⟩
  refine ⟨h.length, _,
    L.copied (some { arr := h.length + 1, off := 0, len := s.len, cap := s.len }),
    { arr := h.length + 1, off := 0, len := s.len, cap := s.len },
    JiraMachineList.DeepCopy_some_eq h a L s xs hi hs hx hbd, hq, rfl, Nat.le_refl _,
    Nat.le_succ _, fun e => absurd hsa (by rw [← e]; simp), hold, ?_, ?_, ?_, ?_⟩
  · intro i hlt v
    obtain ⟨y, hy⟩ := hcopy i hlt
    have hw := Heap.writeMachine_eq_put _ _ y v hy
    refine ⟨_, hw, ?_, ?_, ?_⟩
    · rw [Heap.loadList_congr _ h a, hi]
      rw [Heap.writeMachine_elem_frame _ _ _ _ v hw a (by omega), hold a ha]
    · intro j
      apply Heap.readMachine_elem_congr
      rw [Heap.writeMachine_elem_frame _ _ _ _ v hw s.arr (by omega), hold _ hsa]
    · intro addr hlt2
      rw [Heap.writeMachine_elem_frame _ _ _ _ v hw addr (by omega), hold _ hlt2]
  · intro i hlt f
    obtain ⟨y, hy⟩ := hcopy i hlt
    have hw := Heap.writeMachine_eq_put _ _ y { y with Spec := f } hy
    rw [← Heap.storeSpec_field_eq _ _ y f hy] at hw
    have hw2 := hw
    rw [Heap.storeSpec_field_eq _ _ y f hy] at hw2
    refine ⟨_, hw, ?_, ?_, ?_⟩
    · rw [Heap.loadList_congr _ h a, hi]
      rw [Heap.writeMachine_elem_frame _ _ _ _ _ hw2 a (by omega), hold a ha]
    · intro j
      apply Heap.readMachine_elem_congr
      rw [Heap.writeMachine_elem_frame _ _ _ _ _ hw2 s.arr (by omega), hold _ hsa]
    · intro addr hlt2
      rw [Heap.writeMachine_elem_frame _ _ _ _ _ hw2 addr (by omega), hold _ hlt2]
  · intro j hlt v
    obtain ⟨x, hxj⟩ := hsrc j hlt
    have hw := Heap.writeMachine_eq_put _ _ x v hxj
    refine ⟨_, hw, ?_, ?_⟩
    · rw [Heap.loadList_congr _ _ h.length
        (Heap.writeMachine_elem_frame _ _ _ _ v hw h.length (by omega)), hq]
    · intro i
      apply Heap.readMachine_elem_congr
      exact Heap.writeMachine_elem_frame _ _ _ _ v hw (h.length + 1) (by omega)
  · intro v
    have hl : Heap.loadList (h ++ [Obj.list (L.copied
        (some { arr := h.length + 1, off := 0, len := s.len, cap := s.len })),
          Obj.array ((s.elems xs).map JiraMachine.copied)]) (some a) = .ok L :=
      Heap.loadList_append h _ a L hi
    refine ⟨_, Heap.storeList_eq_set _ a L v hl, ?_, ?_⟩
    · rw [Heap.loadList_congr _ _ h.length (List.getElem?_set_ne (by omega)), hq]
    · intro i
      apply Heap.readMachine_elem_congr
      exact List.getElem?_set_ne (Nat.ne_of_lt (Nat.lt_succ_of_lt ha))

theorem Heap.validMachinePtr_some {K : Metav1} (h : Heap K) (l : MachineLoc)
    (hv : h.validMachinePtr (some l) = true) : ∃ m, h.readMachine l = .ok m := by
  simp only [Heap.validMachinePtr] at hv
  split at hv
  · rename_i m hm; exact ⟨m, hm⟩
  · simp at hv

theorem Heap.validSpecPtr_some {K : Metav1} (h : Heap K) (l : FieldLoc)
    (hv : h.validSpecPtr (some l) = true) : ∃ s, h.loadSpec (some l) = .ok s := by
  simp only [Heap.validSpecPtr] at hv
  split at hv
  · rename_i m hm; exact ⟨m, hm⟩
  · simp at hv

theorem Heap.validStatusPtr_some {K : Metav1} (h : Heap K) (l : StatusLoc)
    (hv : h.validStatusPtr (some l) = true) : ∃ s, h.loadStatus (some l) = .ok s := by
  simp only [Heap.validStatusPtr] at hv
  split at hv
  · rename_i m hm; exact ⟨m, hm⟩
  · simp at hv

theorem Heap.validSlice_some {K : Metav1} (h : Heap K) (s : Slice)
    (hv : h.validSlice (some s) = true) :
    ∃ xs, h[s.arr]? = some (.array xs) ∧ s.off + s.len ≤ xs.length := by
  simp only [Heap.validSlice] at hv
  split at hv
  · rename_i xs hx; exact ⟨xs, hx, by simpa using hv⟩
  · simp at hv

theorem Heap.validListPtr_some {K : Metav1} (h : Heap K) (a : Nat)
    (hv : h.validListPtr (some a) = true) :
    ∃ L, h.loadList (some a) = .ok L ∧ h.validSlice L.Items = true := by
  simp only [Heap.validListPtr] at hv
  split at hv
  · rename_i L hL; exact ⟨L, hL, hv⟩
  · simp at hv

theorem Heap.storeList_ok {K : Metav1} (h h1 : Heap K) (b : Nat) (v : JiraMachineList K)
    (hw : h.storeList (some b) v = .ok h1) :
    (∃ Lb, h.loadList (some b) = .ok Lb) ∧ h1 = List.set h b (.list v) := by
  simp only [Heap.storeList] at hw
  split at hw
  · rename_i Lb hb
    injection hw with e
    exact ⟨⟨Lb, (Heap.loadList_some_iff h b Lb).mpr hb⟩, e.symm⟩
  · simp at hw

theorem Heap.storeMachine_ok {K : Metav1} (h h1 : Heap K) (l : MachineLoc) (v : JiraMachine K)
    (hw : h.storeMachine (some l) v = .ok h1) :
    (∃ y, h.readMachine l = .ok y) ∧ h1 = h.putMachine l v := by
  simp only [Heap.storeMachine] at hw
  cases l with
  | cell a =>
    simp only [Heap.writeMachine] at hw
    split at hw
    · rename_i y hy
      injection hw with e
      exact ⟨⟨y, by simp [Heap.readMachine, hy]⟩, e.symm⟩
    · simp at hw
  | elem arr i =>
    simp only [Heap.writeMachine] at hw
    split at hw
    · rename_i xs hx
      split at hw
      · rename_i hlt
        injection hw with e
        refine ⟨⟨xs[i], ?_⟩, ?_⟩
        · rw [Heap.readMachine_elem_iff]
          exact ⟨xs, hx, List.getElem?_eq_getElem hlt⟩
        · rw [← e]; simp [Heap.putMachine, hx]
      · simp at hw
    · simp at hw

theorem Heap.storeSpec_ok {K : Metav1} (h h1 : Heap K) (l : FieldLoc) (v : JiraMachineSpec)
    (hw : h.storeSpec (some l) v = .ok h1) :
    (∃ y, h.loadSpec (some l) = .ok y) ∧ h1 = h.putSpec l v := by
  cases l with
  | cell a =>
    simp only [Heap.storeSpec] at hw
    split at hw
    · rename_i y hy
      injection hw with e
      exact ⟨⟨y, (Heap.loadSpec_cell_iff h a y).mpr hy⟩, e.symm⟩
    · simp at hw
  | field m =>
    simp only [Heap.storeSpec, bind, Except.bind] at hw
    split at hw
    · simp at hw
    · rename_i w hr
      refine ⟨⟨w.Spec, (Heap.loadSpec_field_iff h m _).mpr ⟨w, hr, rfl⟩⟩, ?_⟩
      rw [Heap.writeMachine_eq_put h m w _ hr] at hw
      injection hw with e
      rw [← e]; simp [Heap.putSpec, hr]

theorem Heap.storeStatus_ok {K : Metav1} (h h1 : Heap K) (l : StatusLoc) (v : JiraMachineStatus)
    (hw : h.storeStatus (some l) v = .ok h1) :
    (∃ y, h.loadStatus (some l) = .ok y) ∧ h1 = h.putStatus l v := by
  cases l with
  | zerobase =>
    simp only [Heap.storeStatus] at hw
    injection hw with e
    exact ⟨⟨{}, rfl⟩, e.symm⟩
  | cell a =>
    simp only [Heap.storeStatus] at hw
    split at hw
    · rename_i y hy
      injection hw with e
      exact ⟨⟨y, (Heap.loadStatus_cell_iff h a y).mpr hy⟩, e.symm⟩
    · simp at hw
  | field m =>
    simp only [Heap.storeStatus, bind, Except.bind] at hw
    split at hw
    · simp at hw
    · rename_i w hr
      refine ⟨⟨w.Status, (Heap.loadStatus_field_iff h m _).mpr ⟨w, hr, rfl⟩⟩, ?_⟩
      rw [Heap.writeMachine_eq_put h m w _ hr] at hw
      injection hw with e
      rw [← e]; simp [Heap.putStatus, hr]

/-- `JiraMachineList.DeepCopyInto` completes on every valid non-nil receiver
and live destination (equal or not), and the destination then holds the
receiver's `TypeMeta`, and `Items` that are nil exactly when the receiver's were
and of the same length. -/
theorem JiraMachineList.DeepCopyInto_total {K : Metav1} (h : Heap K) (a b : Nat)
    (L Lb : JiraMachineList K) (hi : h.loadList (some a) = .ok L)
    (hv : h.validSlice L.Items = true) (ho : h.loadList (some b) = .ok Lb) :
    ∃ (h2 : Heap K) (L2 : JiraMachineList K),
      JiraMachineList.DeepCopyInto K (some a) (some b) h = .ok h2 ∧
      h2.loadList (some b) = .ok L2 ∧ L2.TypeMeta = L.TypeMeta ∧
      (L2.Items = none ↔ L.Items = none) ∧ sliceLen L2.Items = sliceLen L.Items := by
  have hb : b < h.length := by
    rw [Heap.loadList_some_iff] at ho
    exact (List.getElem?_eq_some_iff.mp ho).1
  cases hs : L.Items with
  | none =>
    refine ⟨_, L.copied none, JiraMachineList.DeepCopyInto_nil_eq h a b L Lb hi ho hs, ?_, rfl,
      by simp [JiraMachineList.copied], by simp [JiraMachineList.copied]⟩
    rw [Heap.loadList_set h b b Lb _ ho]; simp
  | some s =>
    rw [hs] at hv
    obtain ⟨xs, hx, hbd⟩ := Heap.validSlice_some h s hv
    have hload : ∀ (t : Heap K) (v : JiraMachineList K),
        Heap.loadList (List.set h b (.list v) ++ t) (some b) = .ok v := by
      intro t v
      apply Heap.loadList_append
      rw [Heap.loadList_set h b b Lb _ ho]; simp
    by_cases e : a = b
    · subst e
      obtain ⟨zs, _, hrun⟩ := JiraMachineList.DeepCopyInto_self h a L s hi hs
      exact ⟨_, _, hrun, hload _ _, rfl, by simp [JiraMachineList.copied],
        by simp [JiraMachineList.copied, sliceLen]⟩
    · exact ⟨_, _, JiraMachineList.DeepCopyInto_some_eq h a b L Lb s xs hi ho e hs hx hbd,
        hload _ _, rfl, by simp [JiraMachineList.copied],
        by simp [JiraMachineList.copied, sliceLen]⟩

/-- `JiraMachineList.DeepCopy` completes on every valid non-nil receiver: it
returns the first free address, where the new heap holds a list. -/
theorem JiraMachineList_DeepCopy_total {K : Metav1} (h : Heap K) (a : Nat)
    (hv : h.validListPtr (some a) = true) :
    ∃ (h2 : Heap K) (L2 : JiraMachineList K),
      JiraMachineList.DeepCopy K (some a) h = .ok (some h.length, h2) ∧
      h2.loadList (some h.length) = .ok L2 := by
  obtain ⟨L, hi, hvs⟩ := Heap.validListPtr_some h a hv
  cases hs : L.Items with
  | none =>
    refine ⟨_, L.copied none, JiraMachineList.DeepCopy_nil_eq h a L hi hs, ?_⟩
    simp [Heap.loadList]
  | some s =>
    rw [hs] at hvs
    obtain ⟨xs, hx, hbd⟩ := Heap.validSlice_some h s hvs
    refine ⟨_, L.copied (some { arr := h.length + 1, off := 0, len := s.len, cap := s.len }),
      JiraMachineList.DeepCopy_some_eq h a L s xs hi hs hx hbd, ?_⟩
    rw [Heap.loadList_some_iff, Heap.getElem?_alloc_fst]

/-- The list `JiraMachineList.DeepCopy` returns is valid in the new heap. -/
theorem JiraMachineList.DeepCopy_valid {K : Metav1} (h : Heap K) (a : Nat)
    (hv : h.validListPtr (some a) = true) :
    ∃ (h2 : Heap K),
      JiraMachineList.DeepCopy K (some a) h = .ok (some h.length, h2) ∧
      h2.validListPtr (some h.length) = true := by
  obtain ⟨L, hi, hvs⟩ := Heap.validListPtr_some h a hv
  cases hs : L.Items with
  | none =>
    refine ⟨_, JiraMachineList.DeepCopy_nil_eq h a L hi hs, ?_⟩
    simp [Heap.validListPtr, Heap.loadList, JiraMachineList.copied, Heap.validSlice]
  | some s =>
    rw [hs] at hvs
    obtain ⟨xs, hx, hbd⟩ := Heap.validSlice_some h s hvs
    refine ⟨_, JiraMachineList.DeepCopy_some_eq h a L s xs hi hs hx hbd, ?_⟩
    have h1 := Heap.getElem?_alloc_fst h
      (Obj.list (L.copied (some { arr := h.length + 1, off := 0, len := s.len, cap := s.len })))
      (Obj.array ((s.elems xs).map JiraMachine.copied))
    have h2 := Heap.getElem?_alloc_snd h
      (Obj.list (L.copied (some { arr := h.length + 1, off := 0, len := s.len, cap := s.len })))
      (Obj.array ((s.elems xs).map JiraMachine.copied))
    have hq := (Heap.loadList_some_iff _ _ _).mpr h1
    simp only [Heap.validListPtr, hq]
    simp only [JiraMachineList.copied] at h2 ⊢
    simp only [Heap.validSlice, h2]
    simp [Slice.length_elems s xs hbd]

theorem Heap.readMachine_fresh {K : Metav1} (h : Heap K) :
    h.validMachinePtr (some (.cell h.length)) = false := by
  simp [Heap.validMachinePtr, Heap.readMachine]

theorem Heap.loadList_fresh {K : Metav1} (h : Heap K) :
    h.validListPtr (some h.length) = false := by
  simp [Heap.validListPtr, Heap.loadList]

theorem Heap.loadSpec_fresh {K : Metav1} (h : Heap K) :
    h.validSpecPtr (some (.cell h.length)) = false := by
  simp [Heap.validSpecPtr, Heap.loadSpec]

/-- Whenever `JiraMachine.DeepCopy` returns, its result is nil exactly when its
receiver is. -/
theorem JiraMachine_DeepCopy_nil_iff {K : Metav1} (h h2 : Heap K) (p q : MachinePtr)
    (hrun : JiraMachine.DeepCopy K p h = .ok (q, h2)) : q = none ↔ p = none := by
  cases p with
  | none =>
    simp only [JiraMachine.DeepCopy, if_true, pure, Except.pure] at hrun
    injection hrun with e
    injection e with e1 e2
    simp [← e1]
  | some l =>
    simp only [JiraMachine.DeepCopy, reduceCtorEq, if_false, Heap.newMachine, bind,
      Except.bind, pure, Except.pure] at hrun
    split at hrun
    · simp at hrun
    · injection hrun with e
      injection e with e1 e2
      simp [← e1]

/-- Whenever `JiraMachineList.DeepCopy` returns, its result is nil exactly when its
receiver is. -/
theorem JiraMachineList_DeepCopy_nil_iff {K : Metav1} (h h2 : Heap K) (p q : ListPtr)
    (hrun : JiraMachineList.DeepCopy K p h = .ok (q, h2)) : q = none ↔ p = none := by
  cases p with
  | none =>
    simp only [JiraMachineList.DeepCopy, if_true, pure, Except.pure] at hrun
    injection hrun with e
    injection e with e1 e2
    simp [← e1]
  | some l =>
    simp only [JiraMachineList.DeepCopy, reduceCtorEq, if_false, Heap.newList, bind,
      Except.bind, pure, Except.pure] at hrun
    split at hrun
    · simp at hrun
    · injection hrun with e
      injection e with e1 e2
      simp [← e1]

/-- Whenever `JiraMachineSpec.DeepCopy` returns, its result is nil exactly when its
receiver is. -/
theorem JiraMachineSpec_DeepCopy_nil_iff {K : Metav1} (h h2 : Heap K) (p q : SpecPtr)
    (hrun : JiraMachineSpec.DeepCopy K p h = .ok (q, h2)) : q = none ↔ p = none := by
  cases p with
  | none =>
    simp only [JiraMachineSpec.DeepCopy, if_true, pure, Except.pure] at hrun
    injection hrun with e
    injection e with e1 e2
    simp [← e1]
  | some l =>
    simp only [JiraMachineSpec.DeepCopy, reduceCtorEq, if_false, Heap.newSpec, bind,
      Except.bind, pure, Except.pure] at hrun
    split at hrun
    · simp at hrun
    · injection hrun with e
      injection e with e1 e2
      simp [← e1]

/-- Whenever `JiraMachineStatus.DeepCopy` returns, its result is nil exactly when its
receiver is. -/
theorem JiraMachineStatus_DeepCopy_nil_iff {K : Metav1} (h h2 : Heap K) (p q : StatusPtr)
    (hrun : JiraMachineStatus.DeepCopy K p h = .ok (q, h2)) : q = none ↔ p = none := by
  cases p with
  | none =>
    simp only [JiraMachineStatus.DeepCopy, if_true, pure, Except.pure] at hrun
    injection hrun with e
    injection e with e1 e2
    simp [← e1]
  | some l =>
    simp only [JiraMachineStatus.DeepCopy, reduceCtorEq, if_false, Heap.newStatus, bind,
      Except.bind, pure, Except.pure] at hrun
    split at hrun
    · simp at hrun
    · injection hrun with e
      injection e with e1 e2
      simp [← e1]

/-- Claim C4, amended. For each of `JiraMachine`, `JiraMachineList`,
`JiraMachineSpec` and `JiraMachineStatus`: `DeepCopy` of the nil receiver
returns nil, without a fault and with the heap untouched; `DeepCopy` of a valid
non-nil receiver returns a non-nil pointer to a variable that is live after the
call; and whenever `DeepCopy` returns, its result is nil if and only if its
receiver is. For `JiraMachine`, `JiraMachineList` and `JiraMachineSpec` the
variable returned did not exist before the call. -/
theorem claim_C4_DeepCopy_nil_iff_nil (K : Metav1) (h : Heap K) :
    (JiraMachine.DeepCopy K none h = .ok (none, h) ∧
      (∀ l, h.validMachinePtr (some l) = true → ∃ q h2,
        JiraMachine.DeepCopy K (some l) h = .ok (some q, h2) ∧
        h.validMachinePtr (some q) = false ∧ h2.validMachinePtr (some q) = true) ∧
      (∀ p q h2, JiraMachine.DeepCopy K p h = .ok (q, h2) → (q = none ↔ p = none))) ∧
    (JiraMachineList.DeepCopy K none h = .ok (none, h) ∧
      (∀ a, h.validListPtr (some a) = true → ∃ q h2,
        JiraMachineList.DeepCopy K (some a) h = .ok (some q, h2) ∧
        h.validListPtr (some q) = false ∧ h2.validListPtr (some q) = true) ∧
      (∀ p q h2, JiraMachineList.DeepCopy K p h = .ok (q, h2) → (q = none ↔ p = none))) ∧
    (JiraMachineSpec.DeepCopy K none h = .ok (none, h) ∧
      (∀ l, h.validSpecPtr (some l) = true → ∃ q h2,
        JiraMachineSpec.DeepCopy K (some l) h = .ok (some q, h2) ∧
        h.validSpecPtr (some q) = false ∧ h2.validSpecPtr (some q) = true) ∧
      (∀ p q h2, JiraMachineSpec.DeepCopy K p h = .ok (q, h2) → (q = none ↔ p = none))) ∧
    (JiraMachineStatus.DeepCopy K none h = .ok (none, h) ∧
      (∀ l, h.validStatusPtr (some l) = true → ∃ q h2,
        JiraMachineStatus.DeepCopy K (some l) h = .ok (some q, h2) ∧
        h2.validStatusPtr (some q) = true) ∧
      (∀ p q h2, JiraMachineStatus.DeepCopy K p h = .ok (q, h2) → (q = none ↔ p = none))) := by
  refine ⟨⟨rfl, ?_, ?_⟩, ⟨rfl, ?_, ?_⟩, ⟨rfl, ?_, ?_⟩, ⟨rfl, ?_, ?_⟩⟩
  · intro l hv
    obtain ⟨m, hm⟩ := Heap.validMachinePtr_some h l hv
    refine ⟨_, _, JiraMachine_DeepCopy_eq h l m hm, Heap.readMachine_fresh h, ?_⟩
    simp [Heap.validMachinePtr, Heap.readMachine]
  · intro p q h2 hrun
    exact JiraMachine_DeepCopy_nil_iff h h2 p q hrun
  · intro a hv
    obtain ⟨h2, hrun, hl⟩ := JiraMachineList.DeepCopy_valid h a hv
    exact ⟨_, _, hrun, Heap.loadList_fresh h, hl⟩
  · intro p q h2 hrun
    exact JiraMachineList_DeepCopy_nil_iff h h2 p q hrun
  · intro l hv
    obtain ⟨m, hm⟩ := Heap.validSpecPtr_some h l hv
    refine ⟨_, _, JiraMachineSpec_DeepCopy_eq h l m hm, Heap.loadSpec_fresh h, ?_⟩
    simp [Heap.validSpecPtr, Heap.loadSpec]
  · intro p q h2 hrun
    exact JiraMachineSpec_DeepCopy_nil_iff h h2 p q hrun
  · intro l hv
    obtain ⟨m, hm⟩ := Heap.validStatusPtr_some h l hv
    exact ⟨_, _, JiraMachineStatus_DeepCopy_eq h l m hm, rfl⟩
  · intro p q h2 hrun
    exact JiraMachineStatus_DeepCopy_nil_iff h h2 p q hrun

/-- Claim C4 as stated fails for `JiraMachineStatus`, a struct of size zero:
`DeepCopy` of a status obtained from `new(JiraMachineStatus)` returns that very
pointer, and `DeepCopy` of the status in cell 4 of `sampleHeap` returns the
shared zero-size address; that address is live before the call and the heap
after the call is the heap before it, so no value is newly created. -/
theorem claim_C4_counterexample :
    JiraMachineStatus.DeepCopy Metav1.plain (some .zerobase) sampleHeap =
      .ok (some .zerobase, sampleHeap) ∧
    JiraMachineStatus.DeepCopy Metav1.plain (some (.cell 4)) sampleHeap =
      .ok (some .zerobase, sampleHeap) ∧
    sampleHeap.validStatusPtr (some .zerobase) = true ∧
    ¬ (∃ q h2, JiraMachineStatus.DeepCopy Metav1.plain (some (.cell 4)) sampleHeap =
        .ok (some q, h2) ∧ sampleHeap.validStatusPtr (some q) = false) := by
  refine ⟨rfl, rfl, rfl, ?_⟩
  rintro ⟨q, h2, hrun, hfresh⟩
  have e : JiraMachineStatus.DeepCopy Metav1.plain (some (.cell 4)) sampleHeap =
      .ok (some .zerobase, sampleHeap) := rfl
  rw [e] at hrun
  injection hrun with e1
  injection e1 with e2 e3
  injection e2 with e4
  rw [← e4] at hfresh
  exact absurd hfresh (by decide)

/-- Claim C4, amended, on `sampleHeap`: the valid non-nil receivers are the
machine in cell 2, the list in cell 0, the spec in cell 3 and the status in
cell 4. -/
theorem claim_C4_witness :
    (∃ q h2, JiraMachine.DeepCopy Metav1.plain (some (.cell 2)) sampleHeap = .ok (some q, h2) ∧
        sampleHeap.validMachinePtr (some q) = false ∧ h2.validMachinePtr (some q) = true) ∧
    (∃ q h2, JiraMachineList.DeepCopy Metav1.plain (some 0) sampleHeap = .ok (some q, h2) ∧
        sampleHeap.validListPtr (some q) = false ∧ h2.validListPtr (some q) = true) ∧
    (∃ q h2, JiraMachineSpec.DeepCopy Metav1.plain (some (.cell 3)) sampleHeap = .ok (some q, h2) ∧
        sampleHeap.validSpecPtr (some q) = false ∧ h2.validSpecPtr (some q) = true) ∧
    (∃ q h2, JiraMachineStatus.DeepCopy Metav1.plain (some (.cell 4)) sampleHeap =
        .ok (some q, h2) ∧ h2.validStatusPtr (some q) = true) :=
  ⟨(claim_C4_DeepCopy_nil_iff_nil Metav1.plain sampleHeap).1.2.1 (.cell 2) rfl,
   (claim_C4_DeepCopy_nil_iff_nil Metav1.plain sampleHeap).2.1.2.1 0 rfl,
   (claim_C4_DeepCopy_nil_iff_nil Metav1.plain sampleHeap).2.2.1.2.1 (.cell 3) rfl,
   (claim_C4_DeepCopy_nil_iff_nil Metav1.plain sampleHeap).2.2.2.2.1 (.cell 4) rfl⟩

theorem JiraMachine_DeepCopyObject_of_DeepCopy {K : Metav1} (h h2 : Heap K) (p c : MachinePtr)
    (hrun : JiraMachine.DeepCopy K p h = .ok (c, h2)) :
    JiraMachine.DeepCopyObject K p h =
      .ok (if c ≠ none then RuntimeObject.jiraMachine c else RuntimeObject.nil, h2) := by
  simp only [JiraMachine.DeepCopyObject, hrun, bind, Except.bind, pure, Except.pure]
  split <;> rfl

theorem JiraMachineList_DeepCopyObject_of_DeepCopy {K : Metav1} (h h2 : Heap K) (p c : ListPtr)
    (hrun : JiraMachineList.DeepCopy K p h = .ok (c, h2)) :
    JiraMachineList.DeepCopyObject K p h =
      .ok (if c ≠ none then RuntimeObject.jiraMachineList c else RuntimeObject.nil, h2) := by
  simp only [JiraMachineList.DeepCopyObject, hrun, bind, Except.bind, pure, Except.pure]
  split <;> rfl

theorem JiraMachine_DeepCopy_total {K : Metav1} (h : Heap K) (p : MachinePtr)
    (hv : h.validMachinePtr p = true) : ∃ r, JiraMachine.DeepCopy K p h = .ok r := by
  cases p with
  | none => exact ⟨_, rfl⟩
  | some l =>
    obtain ⟨m, hm⟩ := Heap.validMachinePtr_some h l hv
    exact ⟨_, JiraMachine_DeepCopy_eq h l m hm⟩

theorem JiraMachineList.DeepCopy_total_ptr {K : Metav1} (h : Heap K) (p : ListPtr)
    (hv : h.validListPtr p = true) : ∃ r, JiraMachineList.DeepCopy K p h = .ok r := by
  cases p with
  | none => exact ⟨_, rfl⟩
  | some a =>
    obtain ⟨h2, hrun, _⟩ := JiraMachineList.DeepCopy_valid h a hv
    exact ⟨_, hrun⟩

/-- Claim C5, amended. `DeepCopy` (all four types) and `DeepCopyObject`
(`JiraMachine` and `JiraMachineList`, the two types that have it) complete with
a result for every valid receiver, the nil receiver included. `DeepCopyInto`
completes with a result for every valid non-nil receiver and valid non-nil
destination, also when the two are the same variable; on a nil receiver, and on
a nil destination with a valid receiver, it takes the nil-dereference path. -/
theorem claim_C5_DeepCopyInto_needs_non_nil (K : Metav1) (h : Heap K) :
    ((∀ p, h.validMachinePtr p = true → ∃ r, JiraMachine.DeepCopy K p h = .ok r) ∧
     (∀ p, h.validMachinePtr p = true → ∃ r, JiraMachine.DeepCopyObject K p h = .ok r) ∧
     (∀ li lo, h.validMachinePtr (some li) = true → h.validMachinePtr (some lo) = true →
        ∃ h2, JiraMachine.DeepCopyInto K (some li) (some lo) h = .ok h2) ∧
     (∀ out, JiraMachine.DeepCopyInto K none out h = .error .nilDereference) ∧
     (∀ li, h.validMachinePtr (some li) = true →
        JiraMachine.DeepCopyInto K (some li) none h = .error .nilDereference)) ∧
    ((∀ p, h.validListPtr p = true → ∃ r, JiraMachineList.DeepCopy K p h = .ok r) ∧
     (∀ p, h.validListPtr p = true → ∃ r, JiraMachineList.DeepCopyObject K p h = .ok r) ∧
     (∀ a b, h.validListPtr (some a) = true → h.validListPtr (some b) = true →
        ∃ h2, JiraMachineList.DeepCopyInto K (some a) (some b) h = .ok h2) ∧
     (∀ out, JiraMachineList.DeepCopyInto K none out h = .error .nilDereference) ∧
     (∀ a, h.validListPtr (some a) = true →
        JiraMachineList.DeepCopyInto K (some a) none h = .error .nilDereference)) ∧
    ((∀ p, h.validSpecPtr p = true → ∃ r, JiraMachineSpec.DeepCopy K p h = .ok r) ∧
     (∀ li lo, h.validSpecPtr (some li) = true → h.validSpecPtr (some lo) = true →
        ∃ h2, JiraMachineSpec.DeepCopyInto K (some li) (some lo) h = .ok h2) ∧
     (∀ out, JiraMachineSpec.DeepCopyInto K none out h = .error .nilDereference) ∧
     (∀ li, h.validSpecPtr (some li) = true →
        JiraMachineSpec.DeepCopyInto K (some li) none h = .error .nilDereference)) ∧
    ((∀ p, h.validStatusPtr p = true → ∃ r, JiraMachineStatus.DeepCopy K p h = .ok r) ∧
     (∀ li lo, h.validStatusPtr (some li) = true → h.validStatusPtr (some lo) = true →
        ∃ h2, JiraMachineStatus.DeepCopyInto K (some li) (some lo) h = .ok h2) ∧
     (∀ out, JiraMachineStatus.DeepCopyInto K none out h = .error .nilDereference) ∧
     (∀ li, h.validStatusPtr (some li) = true →
        JiraMachineStatus.DeepCopyInto K (some li) none h = .error .nilDereference)) := by
  refine ⟨⟨JiraMachine_DeepCopy_total h, ?_, ?_, fun _ => rfl, ?_⟩,
    ⟨JiraMachineList.DeepCopy_total_ptr h, ?_, ?_, fun _ => rfl, ?_⟩,
    ⟨?_, ?_, fun _ => rfl, ?_⟩, ⟨?_, ?_, fun _ => rfl, ?_⟩⟩
  · intro p hv
    obtain ⟨⟨c, h2⟩, hrun⟩ := JiraMachine_DeepCopy_total h p hv
    exact ⟨_, JiraMachine_DeepCopyObject_of_DeepCopy h h2 p c hrun⟩
  · intro li lo hvi hvo
    obtain ⟨x, hx⟩ := Heap.validMachinePtr_some h li hvi
    obtain ⟨y, hy⟩ := Heap.validMachinePtr_some h lo hvo
    exact ⟨_, JiraMachine_DeepCopyInto_eq h li lo x y hx hy⟩
  · intro li hvi
    obtain ⟨x, hx⟩ := Heap.validMachinePtr_some h li hvi
    simp [JiraMachine.DeepCopyInto, Heap.loadMachine, Heap.storeMachine, hx, bind, Except.bind]
  · intro p hv
    obtain ⟨⟨c, h2⟩, hrun⟩ := JiraMachineList.DeepCopy_total_ptr h p hv
    exact ⟨_, JiraMachineList_DeepCopyObject_of_DeepCopy h h2 p c hrun⟩
  · intro a b hva hvb
    obtain ⟨L, hL, hvs⟩ := Heap.validListPtr_some h a hva
    obtain ⟨Lb, hLb, _⟩ := Heap.validListPtr_some h b hvb
    obtain ⟨h2, _, hrun, _⟩ := JiraMachineList.DeepCopyInto_total h a b L Lb hL hvs hLb
    exact ⟨h2, hrun⟩
  · intro a hva
    obtain ⟨L, hL, _⟩ := Heap.validListPtr_some h a hva
    simp [JiraMachineList.DeepCopyInto, Heap.storeList, hL, bind, Except.bind]
  · intro p hv
    cases p with
    | none => exact ⟨_, rfl⟩
    | some l =>
      obtain ⟨s, hs⟩ := Heap.validSpecPtr_some h l hv
      exact ⟨_, JiraMachineSpec_DeepCopy_eq h l s hs⟩
  · intro li lo hvi hvo
    obtain ⟨x, hx⟩ := Heap.validSpecPtr_some h li hvi
    obtain ⟨y, hy⟩ := Heap.validSpecPtr_some h lo hvo
    exact ⟨_, JiraMachineSpec_DeepCopyInto_eq h li lo x y hx hy⟩
  · intro li hvi
    obtain ⟨x, hx⟩ := Heap.validSpecPtr_some h li hvi
    simp [JiraMachineSpec.DeepCopyInto, Heap.storeSpec, hx, bind, Except.bind]
  · intro p hv
    cases p with
    | none => exact ⟨_, rfl⟩
    | some l =>
      obtain ⟨s, hs⟩ := Heap.validStatusPtr_some h l hv
      exact ⟨_, JiraMachineStatus_DeepCopy_eq h l s hs⟩
  · intro li lo hvi hvo
    obtain ⟨x, hx⟩ := Heap.validStatusPtr_some h li hvi
    obtain ⟨y, hy⟩ := Heap.validStatusPtr_some h lo hvo
    exact ⟨_, JiraMachineStatus_DeepCopyInto_eq h li lo x y hx hy⟩
  · intro li hvi
    obtain ⟨x, hx⟩ := Heap.validStatusPtr_some h li hvi
    simp [JiraMachineStatus.DeepCopyInto, Heap.storeStatus, hx, bind, Except.bind]

/-- Claim C5 as stated fails: on `sampleHeap`, `DeepCopyInto` with a nil
receiver (`JiraMachine`, `JiraMachineSpec`, `JiraMachineStatus`) or a nil
destination (`JiraMachineList`) ends in a nil dereference. -/
theorem claim_C5_counterexample :
    JiraMachine.DeepCopyInto Metav1.plain none (some (.cell 2)) sampleHeap =
      .error .nilDereference ∧
    JiraMachineList.DeepCopyInto Metav1.plain (some 0) none sampleHeap =
      .error .nilDereference ∧
    JiraMachineSpec.DeepCopyInto Metav1.plain none (some (.cell 3)) sampleHeap =
      .error .nilDereference ∧
    JiraMachineStatus.DeepCopyInto Metav1.plain none (some (.cell 4)) sampleHeap =
      .error .nilDereference :=
  ⟨rfl, rfl, rfl, rfl⟩

/-- Claim C5, amended, on `sampleHeap`: copies between the two elements of the
array, of the list in cell 0 onto itself and into the list in cell 5, between
the spec in cell 3 and the `Spec` field of the machine in cell 2, and of the
status in cell 4. -/
theorem claim_C5_witness :
    (∃ h2, JiraMachine.DeepCopyInto Metav1.plain (some (.elem 1 0)) (some (.elem 1 1))
        sampleHeap = .ok h2) ∧
    (∃ r, JiraMachine.DeepCopyObject Metav1.plain none sampleHeap = .ok r) ∧
    (∃ h2, JiraMachineList.DeepCopyInto Metav1.plain (some 0) (some 0) sampleHeap = .ok h2) ∧
    (∃ h2, JiraMachineList.DeepCopyInto Metav1.plain (some 0) (some 5) sampleHeap = .ok h2) ∧
    (∃ r, JiraMachineList.DeepCopyObject Metav1.plain (some 5) sampleHeap = .ok r) ∧
    (∃ h2, JiraMachineSpec.DeepCopyInto Metav1.plain (some (.cell 3)) (some (.field (.cell 2)))
        sampleHeap = .ok h2) ∧
    (∃ h2, JiraMachineStatus.DeepCopyInto Metav1.plain (some (.cell 4)) (some (.cell 4))
        sampleHeap = .ok h2) ∧
    JiraMachine.DeepCopyInto Metav1.plain (some (.cell 2)) none sampleHeap =
      .error .nilDereference :=
  ⟨(claim_C5_DeepCopyInto_needs_non_nil Metav1.plain sampleHeap).1.2.2.1
      (.elem 1 0) (.elem 1 1) rfl rfl,
   (claim_C5_DeepCopyInto_needs_non_nil Metav1.plain sampleHeap).1.2.1 none rfl,
   (claim_C5_DeepCopyInto_needs_non_nil Metav1.plain sampleHeap).2.1.2.2.1 0 0 rfl rfl,
   (claim_C5_DeepCopyInto_needs_non_nil Metav1.plain sampleHeap).2.1.2.2.1 0 5 rfl rfl,
   (claim_C5_DeepCopyInto_needs_non_nil Metav1.plain sampleHeap).2.1.2.1 (some 5) rfl,
   (claim_C5_DeepCopyInto_needs_non_nil Metav1.plain sampleHeap).2.2.1.2.1
      (.cell 3) (.field (.cell 2)) rfl rfl,
   (claim_C5_DeepCopyInto_needs_non_nil Metav1.plain sampleHeap).2.2.2.2.1
      (.cell 4) (.cell 4) rfl rfl,
   (claim_C5_DeepCopyInto_needs_non_nil Metav1.plain sampleHeap).1.2.2.2.2 (.cell 2) rfl⟩

/-- Claim C6. For `JiraMachine` and `JiraMachineList`: `DeepCopyObject` of the
nil receiver returns the nil `runtime.Object`; whenever `DeepCopyObject`
returns, its result is the nil `runtime.Object` if and only if the receiver is
nil, and it is never an interface that wraps a nil pointer; and for every valid
non-nil receiver `DeepCopy` returns a non-nil pointer `c` and `DeepCopyObject`
returns the `runtime.Object` whose dynamic value is that same `c`, with the same
heap. -/
theorem claim_C6_DeepCopyObject_nil_interface (K : Metav1) (h : Heap K) :
    (JiraMachine.DeepCopyObject K none h = .ok (.nil, h) ∧
      (∀ p r h2, JiraMachine.DeepCopyObject K p h = .ok (r, h2) →
        (r = .nil ↔ p = none) ∧ r ≠ .jiraMachine none) ∧
      (∀ l, h.validMachinePtr (some l) = true → ∃ c h2,
        JiraMachine.DeepCopy K (some l) h = .ok (some c, h2) ∧
        JiraMachine.DeepCopyObject K (some l) h = .ok (.jiraMachine (some c), h2))) ∧
    (JiraMachineList.DeepCopyObject K none h = .ok (.nil, h) ∧
      (∀ p r h2, JiraMachineList.DeepCopyObject K p h = .ok (r, h2) →
        (r = .nil ↔ p = none) ∧ r ≠ .jiraMachineList none) ∧
      (∀ a, h.validListPtr (some a) = true → ∃ c h2,
        JiraMachineList.DeepCopy K (some a) h = .ok (some c, h2) ∧
        JiraMachineList.DeepCopyObject K (some a) h = .ok (.jiraMachineList (some c), h2))) := by
  refine ⟨⟨rfl, ?_, ?_⟩, ⟨rfl, ?_, ?_⟩⟩
  · intro p r h2 hrun
    cases p with
    | none =>
      have e : JiraMachine.DeepCopyObject K none h = .ok (.nil, h) := rfl
      rw [e] at hrun
      injection hrun with e1
      injection e1 with e2 e3
      subst e2
      simp
    | some l =>
      cases hd : JiraMachine.DeepCopy K (some l) h with
      | error f =>
        simp [JiraMachine.DeepCopyObject, hd, bind, Except.bind] at hrun
      | ok res =>
        obtain ⟨c, g⟩ := res
        have hc : c ≠ none := by
          intro e
          have := JiraMachine_DeepCopy_nil_iff h g (some l) c hd
          simp [e] at this
        rw [JiraMachine_DeepCopyObject_of_DeepCopy h g (some l) c hd] at hrun
        simp only [hc, ne_eq, not_false_eq_true, if_true] at hrun
        injection hrun with e1
        injection e1 with e2 e3
        subst e2
        simp [hc]
  · intro l hv
    obtain ⟨m, hm⟩ := Heap.validMachinePtr_some h l hv
    have hd := JiraMachine_DeepCopy_eq h l m hm
    refine ⟨_, _, hd, ?_⟩
    rw [JiraMachine_DeepCopyObject_of_DeepCopy h _ (some l) _ hd]
    simp
  · intro p r h2 hrun
    cases p with
    | none =>
      have e : JiraMachineList.DeepCopyObject K none h = .ok (.nil, h) := rfl
      rw [e] at hrun
      injection hrun with e1
      injection e1 with e2 e3
      subst e2
      simp
    | some l =>
      cases hd : JiraMachineList.DeepCopy K (some l) h with
      | error f =>
        simp [JiraMachineList.DeepCopyObject, hd, bind, Except.bind] at hrun
      | ok res =>
        obtain ⟨c, g⟩ := res
        have hc : c ≠ none := by
          intro e
          have := JiraMachineList_DeepCopy_nil_iff h g (some l) c hd
          simp [e] at this
        rw [JiraMachineList_DeepCopyObject_of_DeepCopy h g (some l) c hd] at hrun
        simp only [hc, ne_eq, not_false_eq_true, if_true] at hrun
        injection hrun with e1
        injection e1 with e2 e3
        subst e2
        simp [hc]
  · intro a hv
    obtain ⟨h2, hd, _⟩ := JiraMachineList.DeepCopy_valid h a hv
    refine ⟨_, _, hd, ?_⟩
    rw [JiraMachineList_DeepCopyObject_of_DeepCopy h _ (some a) _ hd]
    simp

/-- Claim C6 on `sampleHeap`: the machine in cell 2, the list in cell 0, and
the nil `*JiraMachine` receiver. -/
theorem claim_C6_witness :
    (∃ c h2, JiraMachine.DeepCopy Metav1.plain (some (.cell 2)) sampleHeap = .ok (some c, h2) ∧
      JiraMachine.DeepCopyObject Metav1.plain (some (.cell 2)) sampleHeap =
        .ok (.jiraMachine (some c), h2)) ∧
    (∃ c h2, JiraMachineList.DeepCopy Metav1.plain (some 0) sampleHeap = .ok (some c, h2) ∧
      JiraMachineList.DeepCopyObject Metav1.plain (some 0) sampleHeap =
        .ok (.jiraMachineList (some c), h2)) ∧
    ((RuntimeObject.nil = RuntimeObject.nil ↔ (none : MachinePtr) = none) ∧
      RuntimeObject.nil ≠ RuntimeObject.jiraMachine none) :=
  ⟨(claim_C6_DeepCopyObject_nil_interface Metav1.plain sampleHeap).1.2.2 (.cell 2) rfl,
   (claim_C6_DeepCopyObject_nil_interface Metav1.plain sampleHeap).2.2.2 0 rfl,
   (claim_C6_DeepCopyObject_nil_interface Metav1.plain sampleHeap).1.2.1 none .nil sampleHeap rfl⟩

theorem Heap.putStatus_put {K : Metav1} (h : Heap K) (l : StatusLoc) (s v w : JiraMachineStatus)
    (hr : h.loadStatus (some l) = .ok s) :
    (h.putStatus l v).putStatus l w = h.putStatus l w := by
  cases l with
  | zerobase => rfl
  | cell a => simp [Heap.putStatus, List.set_set]
  | field m =>
    rw [Heap.loadStatus_field_iff] at hr
    obtain ⟨x, hx, _⟩ := hr
    simp only [Heap.putStatus, hx, Heap.readMachine_put_self h m x _ hx, Heap.putMachine_put]

/-- `JiraMachineList.DeepCopyInto` into another list, whatever value `v` that
list held before: the run ends in a heap `g` that does not depend on `v`, in
which the destination holds the receiver's `TypeMeta`, the `ListMeta` the
external copier makes of the receiver's, and `Items` that are nil iff the
receiver's are, of the same length, element `i` being
`JiraMachine.copied` of the receiver's element `i`; the receiver is unchanged. -/
theorem JiraMachineList.DeepCopyInto_after_set {K : Metav1} (h : Heap K) (a b : Nat)
    (L Lb : JiraMachineList K) (hab : a ≠ b) (hi : h.loadList (some a) = .ok L)
    (hv : h.validSlice L.Items = true) (ho : h.loadList (some b) = .ok Lb) :
    ∃ (g : Heap K) (L2 : JiraMachineList K),
      (∀ v, JiraMachineList.DeepCopyInto K (some a) (some b) (List.set h b (.list v)) = .ok g) ∧
      g.loadList (some b) = .ok L2 ∧ g.loadList (some a) = .ok L ∧
      L2.TypeMeta = L.TypeMeta ∧
      L2.ListMeta = K.ListMeta_DeepCopyInto L.ListMeta L.ListMeta ∧
      (L2.Items = none ↔ L.Items = none) ∧ sliceLen L2.Items = sliceLen L.Items ∧
      (∀ i, i < sliceLen L.Items → ∃ (pi po : MachinePtr) (x : JiraMachine K),
        sliceIndex L.Items i = .ok pi ∧ sliceIndex L2.Items i = .ok po ∧
        h.loadMachine pi = .ok x ∧ g.loadMachine po = .ok x.copied) := by
  have hb : b < h.length := by
    rw [Heap.loadList_some_iff] at ho
    exact (List.getElem?_eq_some_iff.mp ho).1
  have hi1 : ∀ v, Heap.loadList (List.set h b (.list v)) (some a) = .ok L := by
    intro v; rw [Heap.loadList_set h a b Lb v ho, hi]; simp [hab]
  have ho1 : ∀ v, Heap.loadList (List.set h b (.list v)) (some b) = .ok v := by
    intro v; rw [Heap.loadList_set h b b Lb v ho]; simp
  cases hs : L.Items with
  | none =>
    refine ⟨List.set h b (.list (L.copied none)), L.copied none, fun v => ?_, ho1 _, hi1 _,
      rfl, rfl, by simp [JiraMachineList.copied], by simp [JiraMachineList.copied], ?_⟩
    · rw [JiraMachineList.DeepCopyInto_nil_eq _ a b L v (hi1 v) (ho1 v) hs, List.set_set]
    · intro i hlt
      simp [sliceLen] at hlt
  | some s =>
    rw [hs] at hv
    obtain ⟨xs, hx, hbd⟩ := Heap.validSlice_some h s hv
    have hsb : b ≠ s.arr := by
      intro e
      rw [Heap.loadList_some_iff] at ho
      rw [← e, ho] at hx
      simp at hx
    refine ⟨List.set h b (.list (L.copied
      (some { arr := h.length, off := 0, len := s.len, cap := s.len }))) ++
        [.array ((s.elems xs).map JiraMachine.copied)],
      L.copied (some { arr := h.length, off := 0, len := s.len, cap := s.len }),
      fun v => ?_, Heap.loadList_append _ _ b _ (ho1 _), Heap.loadList_append _ _ a _ (hi1 _),
      rfl, rfl, by simp [JiraMachineList.copied], by simp [JiraMachineList.copied, sliceLen], ?_⟩
    · rw [JiraMachineList.DeepCopyInto_some_eq _ a b L v s xs (hi1 v) (ho1 v) hab hs
        (by rw [List.getElem?_set_ne hsb]; exact hx) hbd, List.set_set, List.length_set]
    · intro i hlt
      have hlt2 : i < s.len := by simpa [sliceLen] using hlt
      have hj : s.off + i < xs.length := by omega
      refine ⟨some (.elem s.arr (s.off + i)), some (.elem h.length (0 + i)), xs[s.off + i],
        by simp [sliceIndex, hlt2], by simp [JiraMachineList.copied, sliceIndex, hlt2], ?_, ?_⟩
      · simp only [Heap.loadMachine]
        rw [Heap.readMachine_elem_iff]
        exact ⟨xs, hx, List.getElem?_eq_getElem hj⟩
      · simp only [Heap.loadMachine]
        rw [Heap.readMachine_elem_iff]
        refine ⟨(s.elems xs).map JiraMachine.copied, ?_, ?_⟩
        · rw [List.getElem?_append_right (by simp)]
          simp
        · simp only [Nat.zero_add, List.getElem?_map, Slice.getElem?_elems s xs i hlt2,
            List.getElem?_eq_getElem hj]
          rfl

/-- Claim C7. `DeepCopyInto` copies the receiver into the destination, and the
result does not depend on what the destination held before. Starting from two
heaps that differ only in the value stored in the destination, `DeepCopyInto`
from a valid non-nil receiver other than the destination completes on both with
one and the same heap, in which the receiver is unchanged and the destination
holds the copy of the receiver:
for `JiraMachineList`, the receiver's `TypeMeta`, the `ListMeta` the external
copier makes of the receiver's, and `Items` that are nil iff the receiver's
are, of the same length, whose element `i` has the `TypeMeta`, `Spec` and
`Status` of the receiver's element `i` and the `ObjectMeta` the external copier
makes of it (whatever the `Items` of the two prior values);
for `JiraMachine`, the same four fields of the receiver;
for `JiraMachineSpec` and `JiraMachineStatus`, the receiver's value.
No assumption on the external `ListMeta`/`ObjectMeta` copiers is needed, because
`*out = *in` comes first. `JiraMachineStatus` has one value only, so its two
prior destination values coincide. -/
theorem claim_C7_DeepCopyInto_overwrites_destination (K : Metav1) (h : Heap K) :
    (∀ (a b : Nat) (L v1 v2 : JiraMachineList K) (h1 h2 : Heap K), a ≠ b →
      h.loadList (some a) = .ok L → h.validSlice L.Items = true →
      h.storeList (some b) v1 = .ok h1 → h.storeList (some b) v2 = .ok h2 →
      ∃ (g : Heap K) (L2 : JiraMachineList K),
        JiraMachineList.DeepCopyInto K (some a) (some b) h1 = .ok g ∧
        JiraMachineList.DeepCopyInto K (some a) (some b) h2 = .ok g ∧
        g.loadList (some b) = .ok L2 ∧ g.loadList (some a) = .ok L ∧
        L2.TypeMeta = L.TypeMeta ∧
        L2.ListMeta = K.ListMeta_DeepCopyInto L.ListMeta L.ListMeta ∧
        (L2.Items = none ↔ L.Items = none) ∧ sliceLen L2.Items = sliceLen L.Items ∧
        (∀ i, i < sliceLen L.Items → ∃ (pi po : MachinePtr) (x y : JiraMachine K),
          sliceIndex L.Items i = .ok pi ∧ sliceIndex L2.Items i = .ok po ∧
          h.loadMachine pi = .ok x ∧ g.loadMachine po = .ok y ∧
          y.TypeMeta = x.TypeMeta ∧
          y.ObjectMeta = K.ObjectMeta_DeepCopyInto x.ObjectMeta x.ObjectMeta ∧
          y.Spec = x.Spec ∧ y.Status = x.Status)) ∧
    (∀ (li lo : MachineLoc) (x v1 v2 : JiraMachine K) (h1 h2 : Heap K), li ≠ lo →
      h.loadMachine (some li) = .ok x →
      h.storeMachine (some lo) v1 = .ok h1 → h.storeMachine (some lo) v2 = .ok h2 →
      ∃ (g : Heap K) (y : JiraMachine K),
        JiraMachine.DeepCopyInto K (some li) (some lo) h1 = .ok g ∧
        JiraMachine.DeepCopyInto K (some li) (some lo) h2 = .ok g ∧
        g.loadMachine (some lo) = .ok y ∧ g.loadMachine (some li) = .ok x ∧
        y.TypeMeta = x.TypeMeta ∧
        y.ObjectMeta = K.ObjectMeta_DeepCopyInto x.ObjectMeta x.ObjectMeta ∧
        y.Spec = x.Spec ∧ y.Status = x.Status) ∧
    (∀ (li lo : FieldLoc) (s v1 v2 : JiraMachineSpec) (h1 h2 : Heap K), li ≠ lo →
      h.loadSpec (some li) = .ok s →
      h.storeSpec (some lo) v1 = .ok h1 → h.storeSpec (some lo) v2 = .ok h2 →
      ∃ g, JiraMachineSpec.DeepCopyInto K (some li) (some lo) h1 = .ok g ∧
        JiraMachineSpec.DeepCopyInto K (some li) (some lo) h2 = .ok g ∧
        g.loadSpec (some lo) = .ok s ∧ g.loadSpec (some li) = .ok s) ∧
    (∀ (li lo : StatusLoc) (t v1 v2 : JiraMachineStatus) (h1 h2 : Heap K), li ≠ lo →
      h.loadStatus (some li) = .ok t →
      h.storeStatus (some lo) v1 = .ok h1 → h.storeStatus (some lo) v2 = .ok h2 →
      ∃ g, JiraMachineStatus.DeepCopyInto K (some li) (some lo) h1 = .ok g ∧
        JiraMachineStatus.DeepCopyInto K (some li) (some lo) h2 = .ok g ∧
        g.loadStatus (some lo) = .ok t ∧ g.loadStatus (some li) = .ok t) := by
  refine ⟨?_, ?_, ?_, ?_⟩
  · intro a b L v1 v2 h1 h2 hab hL hvs hw1 hw2
    obtain ⟨⟨Lb, hLb⟩, e1⟩ := Heap.storeList_ok h h1 b v1 hw1
    obtain ⟨_, e2⟩ := Heap.storeList_ok h h2 b v2 hw2
    obtain ⟨g, L2, hg, p1, p2, p3, p4, p5, p6, p7⟩ :=
      JiraMachineList.DeepCopyInto_after_set h a b L Lb hab hL hvs hLb
    refine ⟨g, L2, by rw [e1]; exact hg v1, by rw [e2]; exact hg v2, p1, p2, p3, p4, p5, p6, ?_⟩
    intro i hlt
    obtain ⟨pi, po, x, q1, q2, q3, q4⟩ := p7 i hlt
    exact ⟨pi, po, x, x.copied, q1, q2, q3, q4, rfl, rfl, rfl, rfl⟩
  · intro li lo x v1 v2 h1 h2 hne hx hw1 hw2
    have hx : h.readMachine li = .ok x := hx
    obtain ⟨⟨y, hy⟩, e1⟩ := Heap.storeMachine_ok h h1 lo v1 hw1
    obtain ⟨_, e2⟩ := Heap.storeMachine_ok h h2 lo v2 hw2
    have key : ∀ v, JiraMachine.DeepCopyInto K (some li) (some lo) (h.putMachine lo v) =
        .ok (h.putMachine lo x.copied) := by
      intro v
      rw [JiraMachine_DeepCopyInto_eq _ li lo x v
        (by rw [Heap.readMachine_put_ne h lo li y v hy hne]; exact hx)
        (Heap.readMachine_put_self h lo y v hy), Heap.putMachine_put]
    refine ⟨_, x.copied, by rw [e1]; exact key v1, by rw [e2]; exact key v2,
      Heap.readMachine_put_self h lo y _ hy, ?_, rfl, rfl, rfl, rfl⟩
    show (h.putMachine lo x.copied).readMachine li = .ok x
    rw [Heap.readMachine_put_ne h lo li y _ hy hne]; exact hx
  · intro li lo x v1 v2 h1 h2 hne hx hw1 hw2
    obtain ⟨⟨y, hy⟩, e1⟩ := Heap.storeSpec_ok h h1 lo v1 hw1
    obtain ⟨_, e2⟩ := Heap.storeSpec_ok h h2 lo v2 hw2
    have key : ∀ v, JiraMachineSpec.DeepCopyInto K (some li) (some lo) (h.putSpec lo v) =
        .ok (h.putSpec lo x) := by
      intro v
      rw [JiraMachineSpec_DeepCopyInto_eq _ li lo x v
        (by rw [Heap.loadSpec_put h lo li y v hy]; simp [hne, hx])
        (by rw [Heap.loadSpec_put h lo lo y v hy]; simp), Heap.putSpec_put h lo y v x hy]
    refine ⟨_, by rw [e1]; exact key v1, by rw [e2]; exact key v2, ?_, ?_⟩
    · rw [Heap.loadSpec_put h lo lo y x hy]; simp
    · rw [Heap.loadSpec_put h lo li y x hy]; simp [hne, hx]
  · intro li lo x v1 v2 h1 h2 _ hx hw1 hw2
    obtain ⟨⟨y, hy⟩, e1⟩ := Heap.storeStatus_ok h h1 lo v1 hw1
    obtain ⟨_, e2⟩ := Heap.storeStatus_ok h h2 lo v2 hw2
    have key : ∀ v, JiraMachineStatus.DeepCopyInto K (some li) (some lo) (h.putStatus lo v) =
        .ok (h.putStatus lo x) := by
      intro v
      rw [JiraMachineStatus_DeepCopyInto_eq _ li lo x v
        (Heap.loadStatus_put h lo li y x v hy hx) (Heap.loadStatus_put h lo lo y y v hy hy),
        Heap.putStatus_put h lo y v x hy]
    exact ⟨_, by rw [e1]; exact key v1, by rw [e2]; exact key v2,
      Heap.loadStatus_put h lo lo y x x hy hy, Heap.loadStatus_put h lo li y x x hy hx⟩

/-- Claim C7 on `sampleHeap`: the list in cell 5 (nil `Items`) copied into the
list in cell 0 after that held non-nil `Items` or the zero value; the list in
cell 0 (two items) copied into the list in cell 5 after that held a slice of
the receiver's own array or the zero value; the machine in cell 2 copied into
element 0 of the array; the spec in cell 3 copied into the `Spec` field of the
machine in cell 2; the `Status` field of that machine copied into the status in
cell 4. -/
theorem claim_C7_witness :
    (∃ (g : Heap Metav1.plain) (L2 : JiraMachineList Metav1.plain),
      JiraMachineList.DeepCopyInto Metav1.plain (some 5) (some 0)
        (List.set sampleHeap 0 (.list (sampleList (some { arr := 1, off := 1, len := 1, cap := 1 })))) = .ok g ∧
      JiraMachineList.DeepCopyInto Metav1.plain (some 5) (some 0)
        (List.set sampleHeap 0 (.list (JiraMachineList.zero Metav1.plain))) = .ok g ∧
      g.loadList (some 0) = .ok L2 ∧ g.loadList (some 5) = .ok (sampleList none) ∧
      L2.TypeMeta = (sampleList none).TypeMeta ∧
      L2.ListMeta = Metav1.plain.ListMeta_DeepCopyInto (sampleList none).ListMeta (sampleList none).ListMeta ∧
      (L2.Items = none ↔ (sampleList none).Items = none) ∧
      sliceLen L2.Items = sliceLen (sampleList none).Items ∧
      (∀ i, i < sliceLen (sampleList none).Items →
        ∃ (pi po : MachinePtr) (x y : JiraMachine Metav1.plain),
          sliceIndex (sampleList none).Items i = .ok pi ∧ sliceIndex L2.Items i = .ok po ∧
          sampleHeap.loadMachine pi = .ok x ∧ g.loadMachine po = .ok y ∧
          y.TypeMeta = x.TypeMeta ∧
          y.ObjectMeta = Metav1.plain.ObjectMeta_DeepCopyInto x.ObjectMeta x.ObjectMeta ∧
          y.Spec = x.Spec ∧ y.Status = x.Status)) ∧
    (∃ (g : Heap Metav1.plain) (L2 : JiraMachineList Metav1.plain),
      JiraMachineList.DeepCopyInto Metav1.plain (some 0) (some 5)
        (List.set sampleHeap 5 (.list (sampleList (some { arr := 1, off := 1, len := 1, cap := 1 })))) = .ok g ∧
      JiraMachineList.DeepCopyInto Metav1.plain (some 0) (some 5)
        (List.set sampleHeap 5 (.list (JiraMachineList.zero Metav1.plain))) = .ok g ∧
      g.loadList (some 5) = .ok L2 ∧ g.loadList (some 0) = .ok (sampleList (some { arr := 1, off := 0, len := 2, cap := 2 })) ∧
      L2.TypeMeta = (sampleList (some { arr := 1, off := 0, len := 2, cap := 2 })).TypeMeta ∧
      L2.ListMeta = Metav1.plain.ListMeta_DeepCopyInto (sampleList (some { arr := 1, off := 0, len := 2, cap := 2 })).ListMeta (sampleList (some { arr := 1, off := 0, len := 2, cap := 2 })).ListMeta ∧
      (L2.Items = none ↔ (sampleList (some { arr := 1, off := 0, len := 2, cap := 2 })).Items = none) ∧
      sliceLen L2.Items = sliceLen (sampleList (some { arr := 1, off := 0, len := 2, cap := 2 })).Items ∧
      (∀ i, i < sliceLen (sampleList (some { arr := 1, off := 0, len := 2, cap := 2 })).Items →
        ∃ (pi po : MachinePtr) (x y : JiraMachine Metav1.plain),
          sliceIndex (sampleList (some { arr := 1, off := 0, len := 2, cap := 2 })).Items i = .ok pi ∧ sliceIndex L2.Items i = .ok po ∧
          sampleHeap.loadMachine pi = .ok x ∧ g.loadMachine po = .ok y ∧
          y.TypeMeta = x.TypeMeta ∧
          y.ObjectMeta = Metav1.plain.ObjectMeta_DeepCopyInto x.ObjectMeta x.ObjectMeta ∧
          y.Spec = x.Spec ∧ y.Status = x.Status)) ∧
    (∃ (g : Heap Metav1.plain) (y : JiraMachine Metav1.plain),
      JiraMachine.DeepCopyInto Metav1.plain (some (.cell 2)) (some (.elem 1 0))
        (sampleHeap.putMachine (.elem 1 0) (sampleMachine "x" "y")) = .ok g ∧
      JiraMachine.DeepCopyInto Metav1.plain (some (.cell 2)) (some (.elem 1 0))
        (sampleHeap.putMachine (.elem 1 0) (JiraMachine.zero Metav1.plain)) = .ok g ∧
      g.loadMachine (some (.elem 1 0)) = .ok y ∧
      g.loadMachine (some (.cell 2)) = .ok (sampleMachine "m2" "c") ∧
      y.TypeMeta = (sampleMachine "m2" "c").TypeMeta ∧
      y.ObjectMeta = Metav1.plain.ObjectMeta_DeepCopyInto (sampleMachine "m2" "c").ObjectMeta
        (sampleMachine "m2" "c").ObjectMeta ∧
      y.Spec = (sampleMachine "m2" "c").Spec ∧ y.Status = (sampleMachine "m2" "c").Status) ∧
    (∃ g,
      JiraMachineSpec.DeepCopyInto Metav1.plain (some (.cell 3)) (some (.field (.cell 2)))
        (sampleHeap.putSpec (.field (.cell 2)) { Foo := "x" }) = .ok g ∧
      JiraMachineSpec.DeepCopyInto Metav1.plain (some (.cell 3)) (some (.field (.cell 2)))
        (sampleHeap.putSpec (.field (.cell 2)) { Foo := "y" }) = .ok g ∧
      g.loadSpec (some (.field (.cell 2))) = .ok { Foo := "d" } ∧
      g.loadSpec (some (.cell 3)) = .ok { Foo := "d" }) ∧
    (∃ g,
      JiraMachineStatus.DeepCopyInto Metav1.plain (some (.field (.cell 2))) (some (.cell 4))
        (sampleHeap.putStatus (.cell 4) {}) = .ok g ∧
      JiraMachineStatus.DeepCopyInto Metav1.plain (some (.field (.cell 2))) (some (.cell 4))
        (sampleHeap.putStatus (.cell 4) JiraMachineStatus.zero) = .ok g ∧
      g.loadStatus (some (.cell 4)) = .ok {} ∧
      g.loadStatus (some (.field (.cell 2))) = .ok {}) :=
  ⟨(claim_C7_DeepCopyInto_overwrites_destination Metav1.plain sampleHeap).1 5 0
      (sampleList none) (sampleList (some { arr := 1, off := 1, len := 1, cap := 1 })) (JiraMachineList.zero Metav1.plain) _ _ (by decide) rfl rfl rfl rfl,
   (claim_C7_DeepCopyInto_overwrites_destination Metav1.plain sampleHeap).1 0 5
      (sampleList (some { arr := 1, off := 0, len := 2, cap := 2 })) (sampleList (some { arr := 1, off := 1, len := 1, cap := 1 })) (JiraMachineList.zero Metav1.plain) _ _ (by decide) rfl rfl rfl rfl,
   (claim_C7_DeepCopyInto_overwrites_destination Metav1.plain sampleHeap).2.1 (.cell 2) (.elem 1 0)
      (sampleMachine "m2" "c") (sampleMachine "x" "y") (JiraMachine.zero Metav1.plain) _ _
      (by decide) rfl rfl rfl,
   (claim_C7_DeepCopyInto_overwrites_destination Metav1.plain sampleHeap).2.2.1 (.cell 3)
      (.field (.cell 2)) { Foo := "d" } { Foo := "x" } { Foo := "y" } _ _ (by decide)
      rfl rfl rfl,
   (claim_C7_DeepCopyInto_overwrites_destination Metav1.plain sampleHeap).2.2.2
      (.field (.cell 2)) (.cell 4) {} {} JiraMachineStatus.zero _ _ (by decide) rfl rfl rfl⟩

/-- Claim C8. `JiraMachineList.DeepCopyInto` from a valid non-nil receiver into
a live destination completes, and afterwards the destination's `Items` are nil
if and only if the receiver's `Items` were nil; when the receiver's `Items` were
non-nil of length 0, the destination's `Items` are non-nil of length 0. -/
theorem claim_C8_Items_nil_iff_nil (K : Metav1) (h : Heap K) (a b : Nat)
    (L Lb : JiraMachineList K) (hi : h.loadList (some a) = .ok L)
    (hv : h.validSlice L.Items = true) (ho : h.loadList (some b) = .ok Lb) :
    ∃ (h2 : Heap K) (L2 : JiraMachineList K),
      JiraMachineList.DeepCopyInto K (some a) (some b) h = .ok h2 ∧
      h2.loadList (some b) = .ok L2 ∧
      (L2.Items = none ↔ L.Items = none) ∧
      (∀ s, L.Items = some s → s.len = 0 → ∃ s2, L2.Items = some s2 ∧ s2.len = 0) := by
  obtain ⟨h2, L2, hrun, hl, _, hiff, hlen⟩ :=
    JiraMachineList.DeepCopyInto_total h a b L Lb hi hv ho
  refine ⟨h2, L2, hrun, hl, hiff, ?_⟩
  intro s hs h0
  cases h2s : L2.Items with
  | none =>
    have := hiff.mp h2s
    rw [hs] at this
    simp at this
  | some s2 =>
    refine ⟨s2, rfl, ?_⟩
    rw [h2s, hs] at hlen
    simpa [sliceLen, h0] using hlen

/-- Claim C8 on `emptyItemsHeap`: the list in cell 0, whose `Items` are non-nil
and empty, copied into the list in cell 2, whose `Items` are nil. -/
theorem claim_C8_witness :
    ∃ (h2 : Heap Metav1.plain) (L2 : JiraMachineList Metav1.plain),
      JiraMachineList.DeepCopyInto Metav1.plain (some 0) (some 2) emptyItemsHeap = .ok h2 ∧
      h2.loadList (some 2) = .ok L2 ∧
      (L2.Items = none ↔
        (sampleList (some { arr := 1, off := 0, len := 0, cap := 2 })).Items = none) ∧
      (∀ s, (sampleList (some { arr := 1, off := 0, len := 0, cap := 2 })).Items = some s →
        s.len = 0 → ∃ s2, L2.Items = some s2 ∧ s2.len = 0) :=
  claim_C8_Items_nil_iff_nil Metav1.plain emptyItemsHeap 0 2
    (sampleList (some { arr := 1, off := 0, len := 0, cap := 2 })) (sampleList none)
    rfl rfl rfl

/-- Claim C3 on `sampleHeap`: the list in cell 0, whose `Items` are the two
machines of the array at address 1. -/
theorem claim_C3_witness :
    ∃ (q : Nat) (h2 : Heap Metav1.plain) (L2 : JiraMachineList Metav1.plain) (s2 : Slice),
      JiraMachineList.DeepCopy Metav1.plain (some 0) sampleHeap = .ok (some q, h2) ∧
      h2.loadList (some q) = .ok L2 ∧ L2.Items = some s2 ∧
      sampleHeap.length ≤ q ∧ sampleHeap.length ≤ s2.arr ∧ s2.arr ≠ 1 ∧
      (∀ addr, addr < sampleHeap.length → h2[addr]? = sampleHeap[addr]?) ∧
      (∀ i, i < s2.len → ∀ v : JiraMachine Metav1.plain, ∃ h3,
        h2.storeMachine (some (.elem s2.arr (s2.off + i))) v = .ok h3 ∧
        h3.loadList (some 0) =
          .ok (sampleList (some { arr := 1, off := 0, len := 2, cap := 2 })) ∧
        (∀ j, h3.readMachine (.elem 1 j) = sampleHeap.readMachine (.elem 1 j)) ∧
        (∀ addr, addr < sampleHeap.length → h3[addr]? = sampleHeap[addr]?)) ∧
      (∀ i, i < s2.len → ∀ f : JiraMachineSpec, ∃ h3,
        h2.storeSpec (some (.field (.elem s2.arr (s2.off + i)))) f = .ok h3 ∧
        h3.loadList (some 0) =
          .ok (sampleList (some { arr := 1, off := 0, len := 2, cap := 2 })) ∧
        (∀ j, h3.readMachine (.elem 1 j) = sampleHeap.readMachine (.elem 1 j)) ∧
        (∀ addr, addr < sampleHeap.length → h3[addr]? = sampleHeap[addr]?)) ∧
      (∀ j, j < 2 → ∀ v : JiraMachine Metav1.plain, ∃ h3,
        h2.storeMachine (some (.elem 1 (0 + j))) v = .ok h3 ∧
        h3.loadList (some q) = .ok L2 ∧
        (∀ i, h3.readMachine (.elem s2.arr i) = h2.readMachine (.elem s2.arr i))) ∧
      (∀ v : JiraMachineList Metav1.plain, ∃ h3,
        h2.storeList (some 0) v = .ok h3 ∧
        h3.loadList (some q) = .ok L2 ∧
        (∀ i, h3.readMachine (.elem s2.arr i) = h2.readMachine (.elem s2.arr i))) :=
  claim_C3_list_DeepCopy_no_alias Metav1.plain sampleHeap 0
    (sampleList (some { arr := 1, off := 0, len := 2, cap := 2 }))
    { arr := 1, off := 0, len := 2, cap := 2 }
    [sampleMachine "m0" "a", sampleMachine "m1" "b"] rfl rfl rfl (by decide)

/-! ## Evaluation on the sample heaps -/

/-- `JiraMachineList.DeepCopy` of the list in cell 0 of `sampleHeap`: the new
list goes to address 6, its `Items` are a slice over the new array at address 7,
which holds the two machines in order; the old heap is untouched. -/
theorem sampleHeap_list_DeepCopy :
    JiraMachineList.DeepCopy Metav1.plain (some 0) sampleHeap =
      .ok (some 6, sampleHeap ++
        [.list (sampleList (some { arr := 7, off := 0, len := 2, cap := 2 })),
         .array [sampleMachine "m0" "a", sampleMachine "m1" "b"]]) :=
  rfl

/-- `JiraMachineList.DeepCopy` of the list in cell 5 of `sampleHeap`, whose
`Items` are nil: the copy's `Items` are nil and no array is allocated. -/
theorem sampleHeap_nil_items_DeepCopy :
    JiraMachineList.DeepCopy Metav1.plain (some 5) sampleHeap =
      .ok (some 6, sampleHeap ++ [.list (sampleList none)]) :=
  rfl

/-- `JiraMachineList.DeepCopyInto` of the list in cell 0 of `emptyItemsHeap`
(non-nil empty `Items`) into the list in cell 2: the destination's `Items` are
a non-nil empty slice over a new, empty array. -/
theorem emptyItemsHeap_DeepCopyInto :
    JiraMachineList.DeepCopyInto Metav1.plain (some 0) (some 2) emptyItemsHeap =
      .ok [ .list (sampleList (some { arr := 1, off := 0, len := 0, cap := 2 })),
            .array [sampleMachine "m0" "a", sampleMachine "m1" "b"],
            .list (sampleList (some { arr := 3, off := 0, len := 0, cap := 0 })),
            .array [] ] :=
  rfl

/-- `JiraMachine.DeepCopyInto` from element 1 to element 0 of the array of
`sampleHeap` overwrites element 0 and nothing else. -/
theorem sampleHeap_elem_DeepCopyInto :
    JiraMachine.DeepCopyInto Metav1.plain (some (.elem 1 1)) (some (.elem 1 0)) sampleHeap =
      .ok (List.set sampleHeap 1 (.array [sampleMachine "m1" "b", sampleMachine "m1" "b"])) :=
  rfl

/-- `JiraMachineList.DeepCopyInto` of the list in cell 0 of `sampleHeap` onto
itself completes: `*out = make(...)` then also replaces the receiver's `Items`,
so the list ends with two zero-valued machines in a new array. -/
theorem sampleHeap_self_DeepCopyInto :
    JiraMachineList.DeepCopyInto Metav1.plain (some 0) (some 0) sampleHeap =
      .ok (List.set sampleHeap 0
            (.list (sampleList (some { arr := 6, off := 0, len := 2, cap := 2 }))) ++
          [.array [JiraMachine.zero Metav1.plain, JiraMachine.zero Metav1.plain]]) :=
  rfl

end V1alpha1
